import Mathlib

/-!
Verification of the BOE / cargo-manifest ingestion pipeline.

This file gives a shallow embedding of the ingestion components of the
repository (`load_BOE_data_json.py`, `load_manifest_xml.py`,
`boe_header_loader.py`) and proves or refutes the behavioural claims made
about them.  Database tables are modelled as Lean lists of rows (list order
is insertion order), one open transaction is modelled as a pending-row list
on a connection value, and Python exceptions are modelled with `Except`.
-/

namespace Boe

/-! ### Python value helpers

Truthiness and the date parsing used by `load_BOE_data_json.load_file_to_db`.
JSON field values are modelled as `Option String`; `none` is JSON null /
missing key, and the empty string is falsy exactly as in Python. -/

/-- Python truthiness of an optional string value (`not x` is `!truthy x`). -/
def truthy : Option String → Bool
  | none => false
  | some s => !(s == "")

/-- Numeric value of a digit string. -/
def digitsToNat (l : List Char) : Nat :=
  l.foldl (fun a c => a * 10 + (c.toNat - 48)) 0

/-- All characters are decimal digits. -/
def allDigits (l : List Char) : Bool := l.all (·.isDigit)

/-- Split a character list at a separator character (auxiliary). -/
def splitCharAux (sep : Char) : List Char → List Char → List (List Char)
  | [], acc => [acc.reverse]
  | c :: cs, acc =>
    if c == sep then acc.reverse :: splitCharAux sep cs []
    else splitCharAux sep cs (c :: acc)

/-- Split a character list at every occurrence of a separator character. -/
def splitChar (sep : Char) (l : List Char) : List (List Char) :=
  splitCharAux sep l []

/-- Gregorian leap-year test. -/
def isLeapYear (y : Nat) : Bool :=
  (y % 4 == 0 && y % 100 != 0) || y % 400 == 0

/-- Number of days in a month (calendar validation done by `strptime`). -/
def daysInMonth (y m : Nat) : Nat :=
  if m == 2 then (if isLeapYear y then 29 else 28)
  else if m == 4 || m == 6 || m == 9 || m == 11 then 30
  else 31

/-- Model of `datetime.strptime(s, "%d/%m/%Y")` followed by
`strftime("%Y-%m-%d")` in `load_file_to_db`: day and month of one or two
digits, a four-digit year, and a real calendar date are required, otherwise
`ValueError` is raised (modelled as `none`).  The resulting sortable ISO
date is modelled as the number `yyyy*10000 + mm*100 + dd`. -/
def parseDateDMY (s : String) : Option Nat :=
  match splitChar '/' s.data with
  | [d, m, y] =>
    if allDigits d && allDigits m && allDigits y then
      if 1 ≤ d.length ∧ d.length ≤ 2 ∧ 1 ≤ m.length ∧ m.length ≤ 2 ∧ y.length = 4 then
        let dn := digitsToNat d
        let mn := digitsToNat m
        let yn := digitsToNat y
        if 1 ≤ yn ∧ 1 ≤ mn ∧ mn ≤ 12 ∧ 1 ≤ dn ∧ dn ≤ daysInMonth yn mn then
          some (yn * 10000 + mn * 100 + dn)
        else none
      else none
    else none
  | _ => none

/-! ### Declaration (Bill of Entry) loader — `load_BOE_data_json.py`

One record of the file's `encodingData.response` list, restricted to the
fields the loader reads.  `dbFault` injects a database error (constraint
violation / connection loss) raised by the `cursor.execute` of this
record's INSERT; it is `false` for every record of a well-behaved file. -/

structure BoeRec where
  boeDate : Option String
  crn : Option String
  boeNo : Option String
  blNumber : Option String
  dbFault : Bool
deriving DecidableEq

/-- One stored row of the `boe_records` table (the JSONB payload column is
summarised by the fields the claims mention). -/
structure BoeRow where
  crn : String
  boe_no : String
  boe_date : Nat
  bl_number : Option String
deriving DecidableEq

/-- A psycopg2 connection with one open transaction: `durable` is the
committed table content, `pending` the uncommitted writes of the open
transaction, and `aborted` records that a statement has failed, which in
PostgreSQL aborts the transaction (all later statements fail and `COMMIT`
acts as `ROLLBACK`). -/
structure PgConn where
  durable : List BoeRow
  pending : List BoeRow
  aborted : Bool
deriving DecidableEq

/-- Rows visible to statements of the open transaction. -/
def connRows (c : PgConn) : List BoeRow := c.durable ++ c.pending

/-- The `ON CONFLICT (crn, boe_no)` uniqueness probe of the INSERT. -/
def boeKeyPresent (c : PgConn) (crn boeNo : String) : Bool :=
  (connRows c).any fun r => r.crn == crn && r.boe_no == boeNo

/-- Result of `load_file_to_db`: final connection, the returned insert
count, the printed skip count, and whether the per-file `try` block
completed without an exception. -/
structure FileResult where
  conn : PgConn
  insCount : Nat
  skipCount : Nat
  ok : Bool
deriving DecidableEq

/-- The record loop of `load_file_to_db`.  Mirrors the source: a falsy
`boeDate`, an unparseable date, or a falsy `crn` / `boeNo` skips the record
(counted, processing continues); otherwise the INSERT is executed —
`insert_count` is incremented whether or not `ON CONFLICT DO NOTHING`
suppressed the row.  A database error while executing the INSERT escapes
the record loop (it is not a `ValueError`/`TypeError`) and is caught by the
file-level handler, which returns 0. -/
def processRecords : PgConn → Nat → Nat → List BoeRec → FileResult
  | c, ins, sk, [] => ⟨c, ins, sk, true⟩
  | c, ins, sk, r :: rest =>
    if !truthy r.boeDate then processRecords c ins (sk + 1) rest
    else
      match parseDateDMY (r.boeDate.getD "") with
      | none => processRecords c ins (sk + 1) rest
      | some d =>
        if !truthy r.crn || !truthy r.boeNo then processRecords c ins (sk + 1) rest
        else
          if c.aborted || r.dbFault then ⟨{ c with aborted := true }, ins, sk, false⟩
          else if boeKeyPresent c (r.crn.getD "") (r.boeNo.getD "") then
            processRecords c (ins + 1) sk rest
          else
            processRecords
              { c with pending := c.pending ++ [⟨r.crn.getD "", r.boeNo.getD "", d, r.blNumber⟩] }
              (ins + 1) sk rest

/-- `load_file_to_db`.  A file whose open/`json.load` fails is `.error` and
yields 0 with no database work; otherwise the record loop runs and a caught
exception makes the function return 0 (the connection keeps the writes and
aborted flag of the open transaction). -/
def loadFileToDb (c : PgConn) (file : Except Unit (List BoeRec)) : FileResult :=
  match file with
  | .error _ => ⟨c, 0, 0, false⟩
  | .ok recs =>
    let res := processRecords c 0 0 recs
    if res.ok then res else ⟨res.conn, 0, res.skipCount, false⟩

/-- The (crn, boe_no) key list of the rows visible on a connection. -/
def connKeys (c : PgConn) : List (String × String) :=
  (connRows c).map fun r => (r.crn, r.boe_no)

/-- A record lacking a CRN or a BOE number (skipped by the key check). -/
def lacksKey (r : BoeRec) : Bool := !truthy r.crn || !truthy r.boeNo

/-- A record that passes all three validation steps and reaches the INSERT. -/
def validRec (r : BoeRec) : Bool :=
  truthy r.boeDate && (parseDateDMY (r.boeDate.getD "")).isSome &&
    truthy r.crn && truthy r.boeNo

/-- One input file of the batch driver `main_loader`. -/
structure DeclFile where
  name : String
  content : Except Unit (List BoeRec)

/-- State of the `main_loader` file loop. -/
structure LoaderState where
  conn : PgConn
  moved : List String
  total : Nat

/-- One iteration of the `main_loader` file loop: the file is loaded on the
shared connection and then moved to the processed folder — the guard
`if inserted >= 0` is always true, so every attempted file is moved. -/
def mainLoaderStep (st : LoaderState) (f : DeclFile) : LoaderState :=
  let res := loadFileToDb st.conn f.content
  { conn := res.conn, moved := st.moved ++ [f.name], total := st.total + res.insCount }

/-- The file loop of `main_loader`: one connection, opened once, shared by
every file of the batch. -/
def mainLoaderRun (initDurable : List BoeRow) (files : List DeclFile) : LoaderState :=
  files.foldl mainLoaderStep ⟨⟨initDurable, [], false⟩, [], 0⟩

/-- `conn.commit()`: committing an aborted transaction persists nothing
(the server has already rolled the transaction back). -/
def pgCommit (c : PgConn) : List BoeRow :=
  if c.aborted then c.durable else c.durable ++ c.pending

/-- `main_loader`: run the file loop, then issue the single `conn.commit()`
that follows it.  Returns the committed table, the moved files in order,
and the printed grand total of per-file insert counts. -/
def mainLoader (initDurable : List BoeRow) (files : List DeclFile) :
    List BoeRow × List String × Nat :=
  let st := mainLoaderRun initDurable files
  (pgCommit st.conn, st.moved, st.total)

/-! ### Manifest ingestion — `load_manifest_xml.py`, BL versioning and children

Identifier values come from `safe_extract` (strings, `""` when the element
is missing) and `safe_int_extract` (integers).  Only the key fields and the
`latest_bl` flag participate in the claimed properties; the remaining BL
payload columns are carried unchanged from the parsed document to the
inserted row and are omitted.  List order of a table is insertion order. -/

/-- One parsed `BillOfLading` block (key fields). -/
structure BLEntry where
  bl_number : String
  bl_version_no : Int
deriving DecidableEq

/-- One parsed container (`ContainersDetails`) or vehicle (`VehicleDetails`)
block, and likewise one stored row of `manifest_container_details` /
`manifest_vehicle_details`: the key pair plus the item identifier. -/
structure ChildEntry where
  bl_number : String
  bl_version_no : Int
  item_no : String
deriving DecidableEq

/-- Output of `parse_manifest_xml` that the BL/children phases consume.
`document_type` and `crn` come from the header block. -/
structure ParsedManifest where
  document_type : String
  crn : String
  bl_list : List BLEntry
  container_list : List ChildEntry
  vehicle_list : List ChildEntry

/-- One stored row of `manifest_bl_details` (key fields plus the flag). -/
structure BLRow where
  crn : String
  bl_number : String
  bl_version_no : Int
  latest_bl : Bool
deriving DecidableEq

/-- `CHECK_BL_EXISTS_SQL`: a row for this (BL number, CRN) exists. -/
def checkBLExists (rows : List BLRow) (bl crn : String) : Bool :=
  rows.any fun r => r.bl_number == bl && r.crn == crn

/-- `UPDATE_PREV_BL_VERSION_SQL`: clear `latest_bl` on every row of this
(BL number, CRN) that currently carries the flag. -/
def updatePrevBLVersion (rows : List BLRow) (bl crn : String) : List BLRow :=
  rows.map fun r =>
    if r.bl_number == bl && r.crn == crn && r.latest_bl then { r with latest_bl := false }
    else r

/-- The per-row effect of `UPDATE_PREV_BL_VERSION_SQL` on the rows of the
targeted (BL number, CRN): a flagged row loses its flag. -/
def clearLatest (r : BLRow) : BLRow :=
  if r.latest_bl then { r with latest_bl := false } else r

/-- `INSERT_NEW_BL_SQL`: insert the new version with `latest_bl = TRUE`,
`ON CONFLICT (bl_number, bl_version_no) DO NOTHING`.  The second component
reports whether the row was actually inserted (no conflict). -/
def insertNewBL (rows : List BLRow) (crn : String) (bl : BLEntry) : List BLRow × Bool :=
  if rows.any (fun r => r.bl_number == bl.bl_number && r.bl_version_no == bl.bl_version_no) then
    (rows, false)
  else (rows ++ [⟨crn, bl.bl_number, bl.bl_version_no, true⟩], true)

/-- One iteration of the PHASE 2 loop of `ingest_manifest_data`.  Returns
the new table, the `bl_inserted` flag of the source (set unconditionally
after the INSERT is executed, conflict or not), and whether no
`ON CONFLICT` suppressed an executed INSERT. -/
def processBL (docType crn : String) (rows : List BLRow) (bl : BLEntry) :
    List BLRow × Bool × Bool :=
  if docType == "HMNDOC" then
    if checkBLExists rows bl.bl_number crn then (rows, false, true)
    else ((insertNewBL rows crn bl).1, true, (insertNewBL rows crn bl).2)
  else if docType == "AMNDOC" || docType == "ADLDOC" then
    ((insertNewBL (updatePrevBLVersion rows bl.bl_number crn) crn bl).1, true,
      (insertNewBL (updatePrevBLVersion rows bl.bl_number crn) crn bl).2)
  else (rows, false, true)

/-- PHASE 2 of `ingest_manifest_data`: process the parsed BL list in order,
collecting `bls_processed_keys` and whether the whole phase was free of
`ON CONFLICT DO NOTHING` suppressions. -/
def blIngest (docType crn : String) : List BLRow → List BLEntry →
    List BLRow × List (String × Int) × Bool
  | rows, [] => (rows, [], true)
  | rows, bl :: rest =>
    ((blIngest docType crn (processBL docType crn rows bl).1 rest).1,
      (if (processBL docType crn rows bl).2.1 then [(bl.bl_number, bl.bl_version_no)]
       else []) ++ (blIngest docType crn (processBL docType crn rows bl).1 rest).2.1,
      (processBL docType crn rows bl).2.2 &&
        (blIngest docType crn (processBL docType crn rows bl).1 rest).2.2)

/-- Key test of a child row against a (BL number, version) pair. -/
def childKeyIs (bl : String) (ver : Int) (c : ChildEntry) : Bool :=
  c.bl_number == bl && c.bl_version_no == ver

/-- Membership of a (BL number, version) pair in `bls_processed_keys`. -/
def keyMem (keys : List (String × Int)) (bl : String) (ver : Int) : Bool :=
  keys.any fun k => k.1 == bl && k.2 == ver

/-- PHASE 3: `DELETE_CONTAINERS_SQL` / `DELETE_VEHICLES_SQL` executed once
per processed key. -/
def deleteChildren (keys : List (String × Int)) (store : List ChildEntry) : List ChildEntry :=
  keys.foldl (fun cs k => cs.filter fun c => !(childKeyIs k.1 k.2 c)) store

/-- PHASES 3–5 for one child table: delete the children of every processed
key, then insert the parsed child rows whose key was processed (the batch
INSERT of `containers_to_insert` / `vehicles_to_insert`). -/
def replaceChildren (keys : List (String × Int)) (store incoming : List ChildEntry) :
    List ChildEntry :=
  deleteChildren keys store ++ incoming.filter fun c => keyMem keys c.bl_number c.bl_version_no

/-- The manifest tables touched by PHASES 2–5 (the header table is modelled
separately, see `ingestHeaderPhase`). -/
structure ManifestDB where
  bl_rows : List BLRow
  containers : List ChildEntry
  vehicles : List ChildEntry
deriving DecidableEq

/-- PHASES 2–5 of `ingest_manifest_data` for one parsed file, committed as
one transaction.  A document with no CRN is rejected up front (no writes).
Returns the new state, the success flag, and whether no BL INSERT was
suppressed by `ON CONFLICT DO NOTHING`. -/
def ingestManifest (db : ManifestDB) (d : ParsedManifest) : ManifestDB × Bool × Bool :=
  if d.crn == "" then (db, false, true)
  else
    ({ bl_rows := (blIngest d.document_type d.crn db.bl_rows d.bl_list).1
       containers := replaceChildren (blIngest d.document_type d.crn db.bl_rows d.bl_list).2.1
         db.containers d.container_list
       vehicles := replaceChildren (blIngest d.document_type d.crn db.bl_rows d.bl_list).2.1
         db.vehicles d.vehicle_list },
      true, (blIngest d.document_type d.crn db.bl_rows d.bl_list).2.2)

/-- A sequence of manifest ingestions (one call of `ingest_manifest_data`
per document, each committed).  The Bool is true when no BL INSERT in the
whole sequence was suppressed by `ON CONFLICT DO NOTHING`. -/
def runManifests : ManifestDB → List ParsedManifest → ManifestDB × Bool
  | db, [] => (db, true)
  | db, d :: rest =>
    ((runManifests (ingestManifest db d).1 rest).1,
      (ingestManifest db d).2.2 && (runManifests (ingestManifest db d).1 rest).2)

/-- The empty manifest store. -/
def emptyManifestDB : ManifestDB := ⟨[], [], []⟩

/-- Stored rows of one (BL number, CRN), in insertion order. -/
def blGroup (rows : List BLRow) (bl crn : String) : List BLRow :=
  rows.filter fun r => r.bl_number == bl && r.crn == crn

/-- Number of rows of the (BL number, CRN) carrying `latest_bl = true`. -/
def latestCount (rows : List BLRow) (bl crn : String) : Nat :=
  ((blGroup rows bl crn).filter fun r => r.latest_bl).length

/-- The most recently inserted row of the (BL number, CRN) carries the
`latest_bl` flag. -/
def lastIsLatest (rows : List BLRow) (bl crn : String) : Bool :=
  match (blGroup rows bl crn).getLast? with
  | some r => r.latest_bl
  | none => false

/-- The single-latest invariant for one (BL number, CRN): no rows at all,
or exactly one flagged row which is the most recently inserted one. -/
def latestGroupOk (rows : List BLRow) (bl crn : String) : Bool :=
  (blGroup rows bl crn).isEmpty ||
    (latestCount rows bl crn == 1 && lastIsLatest rows bl crn)

/-- Number of stored child rows for one (BL number, version) pair. -/
def childCount (store : List ChildEntry) (bl : String) (ver : Int) : Nat :=
  (store.filter (childKeyIs bl ver)).length

/-! ### Manifest batch driver — `process_xml_files` -/

/-- One candidate XML file of the input directory together with the result
of `ingest_manifest_data` on it (the driver branches only on that Boolean). -/
structure XmlFile where
  name : String
  ingestOk : Bool
deriving DecidableEq

/-- Boolean prefix test on character lists. -/
def isPrefixB : List Char → List Char → Bool
  | [], _ => true
  | _ :: _, [] => false
  | p :: ps, c :: cs => p == c && isPrefixB ps cs

/-- Boolean contiguous-subsequence test on character lists. -/
def containsSeq (pat : List Char) : List Char → Bool
  | [] => pat.isEmpty
  | c :: cs => isPrefixB pat (c :: cs) || containsSeq pat cs

/-- Python `'HMNDOC' in f.upper()`. -/
def hasHMNDOC (s : String) : Bool :=
  containsSeq "HMNDOC".data (s.data.map Char.toUpper)

/-- The driver's stable sort with key `'HMNDOC' not in f.upper()`: files
named like base documents first, each part keeping its original order. -/
def sortHMNDOCFirst (files : List XmlFile) : List XmlFile :=
  files.filter (fun f => hasHMNDOC f.name) ++ files.filter (fun f => !hasHMNDOC f.name)

/-- Directory state and counters of `process_xml_files`. -/
structure XmlDirs where
  inputDir : List String
  processedDir : List String
  processedCount : Nat
  errorCount : Nat
deriving DecidableEq

/-- One iteration of the `process_xml_files` loop: skip a file no longer
present in the input directory, move a successfully ingested file to the
processed directory, and on failure only increment the error counter — the
file is left where it was.  (No error directory exists in the manifest
driver; a `shutil.move` failure is logged without undoing the ingestion and
is not modelled.) -/
def xmlStep (st : XmlDirs) (f : XmlFile) : XmlDirs :=
  if !(st.inputDir.any (· == f.name)) then st
  else if f.ingestOk then
    { st with
      inputDir := st.inputDir.filter fun n => !(n == f.name)
      processedDir := st.processedDir ++ [f.name]
      processedCount := st.processedCount + 1 }
  else { st with errorCount := st.errorCount + 1 }

/-- `process_xml_files` on the candidate files of the input directory. -/
def processXmlFiles (files : List XmlFile) : XmlDirs :=
  (sortHMNDOCFirst files).foldl xmlStep ⟨files.map (·.name), [], 0, 0⟩

/-! ### Manifest header upsert — `HEADER_UPSERT_SQL` and PHASE 1

The header table is keyed by CRN; we model the row of one fixed CRN as a
function from its data columns to nullable values.  `crn` (the conflict
key, never changed by the update) and `last_amended_at` (always set to
`CURRENT_TIMESTAMP` by the SQL itself, not from the document) are not data
columns and are left out. -/

/-- A nullable header column value: a text or a parsed date. -/
inductive HVal where
  | str (s : String)
  | date (d : Nat)
deriving DecidableEq

/-- The data columns of `manifest_header`. -/
inductive HField where
  | document_type
  | document_name
  | document_number
  | message_type
  | sender_id
  | receiving_party
  | notify_parties
  | rotation_no
  | rotation_no_creation_date
  | vessel_name
  | voyage_no
  | carrier_code
  | carrier_name
  | vessel_nationality
  | coload_yn
  | inbound_outbound
  | transport_mode
  | port_of_discharge
  | port_of_loading
  | next_port_of_call
  | final_destination
  | shipping_agent_code
  | agent_name
  | customs_office_code
  | eta
  | etd
  | issued_date
deriving DecidableEq

/-- A stored header row for one CRN: column to nullable value. -/
def HeaderRow := HField → Option HVal

/-- `COALESCE(EXCLUDED.col, manifest_header.col)`. -/
def coalesce (a b : Option HVal) : Option HVal :=
  match a with
  | some v => some v
  | none => b

/-- `HEADER_UPSERT_SQL` for one CRN: if no row exists the incoming values
are inserted as given; on conflict every column merges through `COALESCE`
except `document_type` and `document_name`, which the SQL overwrites
unconditionally. -/
def headerUpsertRow (stored : Option HeaderRow) (incoming : HeaderRow) : HeaderRow :=
  match stored with
  | none => incoming
  | some r => fun f =>
    match f with
    | .document_type => incoming .document_type
    | .document_name => incoming .document_name
    | g => coalesce (incoming g) (r g)

/-- The header fields extracted by `parse_manifest_xml` for a successfully
parsed document: text fields go through `safe_extract` with default `""`
(never null), `notify_parties` is always a serialised JSON list (never
null), and date fields go through `convert_date`, which yields null on a
missing or malformed element. -/
structure ParsedHeader where
  crn : String
  document_type : String
  document_name : String
  document_number : String
  message_type : String
  sender_id : String
  receiving_party : String
  notify_parties : String
  rotation_no : String
  rotation_no_creation_date : Option Nat
  vessel_name : String
  voyage_no : String
  carrier_code : String
  carrier_name : String
  vessel_nationality : String
  coload_yn : String
  inbound_outbound : String
  transport_mode : String
  port_of_discharge : String
  port_of_loading : String
  next_port_of_call : String
  final_destination : String
  shipping_agent_code : String
  agent_name : String
  customs_office_code : String
  eta : Option Nat
  etd : Option Nat
  issued_date : Option Nat

/-- The `header_params` tuple of PHASE 1 as a column-indexed row: the
incoming value of each data column for the main UPSERT. -/
def incomingOf (p : ParsedHeader) : HeaderRow := fun f =>
  match f with
  | .document_type => some (.str p.document_type)
  | .document_name => some (.str p.document_name)
  | .document_number => some (.str p.document_number)
  | .message_type => some (.str p.message_type)
  | .sender_id => some (.str p.sender_id)
  | .receiving_party => some (.str p.receiving_party)
  | .notify_parties => some (.str p.notify_parties)
  | .rotation_no => some (.str p.rotation_no)
  | .rotation_no_creation_date => p.rotation_no_creation_date.map .date
  | .vessel_name => some (.str p.vessel_name)
  | .voyage_no => some (.str p.voyage_no)
  | .carrier_code => some (.str p.carrier_code)
  | .carrier_name => some (.str p.carrier_name)
  | .vessel_nationality => some (.str p.vessel_nationality)
  | .coload_yn => some (.str p.coload_yn)
  | .inbound_outbound => some (.str p.inbound_outbound)
  | .transport_mode => some (.str p.transport_mode)
  | .port_of_discharge => some (.str p.port_of_discharge)
  | .port_of_loading => some (.str p.port_of_loading)
  | .next_port_of_call => some (.str p.next_port_of_call)
  | .final_destination => some (.str p.final_destination)
  | .shipping_agent_code => some (.str p.shipping_agent_code)
  | .agent_name => some (.str p.agent_name)
  | .customs_office_code => some (.str p.customs_office_code)
  | .eta => p.eta.map .date
  | .etd => p.etd.map .date
  | .issued_date => p.issued_date.map .date

/-- The `pending_params` tuple used for an amendment/addendum that arrived
without a vessel name: CRN (the key), the document type, the rotation
number, and null for every other column. -/
def pendingIncoming (p : ParsedHeader) : HeaderRow := fun f =>
  match f with
  | .document_type => some (.str p.document_type)
  | .rotation_no => some (.str p.rotation_no)
  | _ => none

/-- PHASE 1 of `ingest_manifest_data` for the row of the document's CRN:
an `AMNDOC`/`ADLDOC` without a vessel name first executes the UPSERT with
the minimal `pending_params`, then the main UPSERT always runs with the
full `header_params`. -/
def ingestHeaderPhase (p : ParsedHeader) (stored : Option HeaderRow) : HeaderRow :=
  let stored1 :=
    if (p.document_type = "AMNDOC" ∨ p.document_type = "ADLDOC") ∧ p.vessel_name = "" then
      some (headerUpsertRow stored (pendingIncoming p))
    else stored
  headerUpsertRow stored1 (incomingOf p)

/-! ### Field coercion utilities

Python `float`, `int(..)` and `strptime` raise exceptions on problematic
text; the raising primitives are modelled in `Except` carrying the
exception class, so that a handler that catches only some classes
(`except (ValueError, TypeError)`) is modelled faithfully: `float` on a
malformed literal raises `ValueError`, while `int` on an infinite float
raises `OverflowError` and on a NaN raises `ValueError`.  Float values are
modelled as exact rationals plus the special values `inf`/`nan`; `float`
literal overflow to infinity is modelled at the IEEE binary64
round-to-nearest boundary.  Only success, failure class, and
finite-versus-infinite matter to the claims, never rounding of finite
values. -/

/-- The Python exception classes these code paths can raise. -/
inductive PyErr where
  | valueError
  | typeError
  | overflowError
deriving DecidableEq

/-- A CPython float: a finite value (modelled exactly as a rational), a
signed infinity, or NaN. -/
inductive PyFloat where
  | finite (q : Rat)
  | infinite (neg : Bool)
  | nan
deriving DecidableEq

/-- Strip surrounding whitespace (Python `str.strip`, and the stripping
`float()` itself performs). -/
def trimWs (l : List Char) : List Char :=
  ((l.dropWhile Char.isWhitespace).reverse.dropWhile Char.isWhitespace).reverse

/-- Rest of a digit group after its leading digit: single underscores are
allowed, each with a digit on both sides (CPython numeric literals). -/
def digitGroupRest : List Char → Bool
  | [] => true
  | ['_'] => false
  | '_' :: c :: rest => c.isDigit && digitGroupRest rest
  | c :: rest => c.isDigit && digitGroupRest rest

/-- A non-empty digit group, possibly with single underscores between
digits. -/
def digitGroup : List Char → Bool
  | [] => false
  | c :: rest => c.isDigit && digitGroupRest rest

/-- Drop the underscores of a digit group before reading its value. -/
def stripUnderscores (l : List Char) : List Char :=
  l.filter fun c => !(c == '_')

/-- Mantissa of a float literal: `digits`, `digits.digits`, `digits.` or
`.digits`, underscores allowed inside each digit group. -/
def parseMantissa (l : List Char) : Option Rat :=
  match splitChar '.' l with
  | [ip] =>
    if digitGroup ip then some ((digitsToNat (stripUnderscores ip) : Int) : Rat) else none
  | [ip, fp] =>
    if (digitGroup ip || ip.isEmpty) && (digitGroup fp || fp.isEmpty) &&
        !(ip.isEmpty && fp.isEmpty) then
      some (((digitsToNat (stripUnderscores ip) : Int) : Rat) +
        ((digitsToNat (stripUnderscores fp) : Int) : Rat) /
          ((10 : Rat) ^ (stripUnderscores fp).length))
    else none
  | _ => none

/-- Strip one optional leading sign, reporting whether it was `-`. -/
def parseSign : List Char → Bool × List Char
  | '+' :: rest => (false, rest)
  | '-' :: rest => (true, rest)
  | l => (false, l)

/-- Scale a mantissa by the exponent part of a float literal. -/
def applyExp (q : Rat) (eneg : Bool) (e : Nat) : Rat :=
  if eneg then q / ((10 : Rat) ^ e) else q * ((10 : Rat) ^ e)

/-- The smallest magnitude that IEEE binary64 round-to-nearest sends to
infinity (`2^1024 - 2^970`); `float()` on a decimal literal at or above it
yields `inf` rather than raising. -/
def dblOverflow : Rat := (2 : Rat) ^ 1024 - (2 : Rat) ^ 970

/-- Classify a parsed non-negative magnitude, applying the sign and the
binary64 overflow-to-infinity behaviour of `float()`. -/
def finiteOrInf (neg : Bool) (q : Rat) : PyFloat :=
  if dblOverflow ≤ q then .infinite neg
  else .finite (if neg then -q else q)

/-- Python `float(s)` on a string, as a partial function: optional sign,
then `inf`/`infinity`/`nan` (case-insensitive) or a decimal mantissa with
an optional `e`-exponent; surrounding whitespace is stripped.  Values are
exact rationals (finite rounding is not modelled), with literal overflow
mapped to infinity at the binary64 boundary. -/
def pyFloat (s : String) : Option PyFloat :=
  match parseSign ((trimWs s.data).map Char.toLower) with
  | (neg, body) =>
    if body = "inf".data ∨ body = "infinity".data then some (.infinite neg)
    else if body = "nan".data then some .nan
    else
      match splitChar 'e' body with
      | [m] => (parseMantissa m).map (finiteOrInf neg)
      | [m, ex] =>
        match parseMantissa m with
        | none => none
        | some q =>
          match parseSign ex with
          | (eneg, edigits) =>
            if digitGroup edigits then
              some (finiteOrInf neg (applyExp q eneg (digitsToNat (stripUnderscores edigits))))
            else none
      | _ => none

/-- Python `float(s)`: raises `ValueError` on a malformed literal. -/
def pyFloatE (s : String) : Except PyErr PyFloat :=
  match pyFloat s with
  | some f => .ok f
  | none => .error .valueError

/-- Truncation toward zero of a finite float value. -/
def pyTrunc (q : Rat) : Int :=
  if 0 ≤ q then q.floor else -((-q).floor)

/-- Python `int(f)` on a float: truncation toward zero on a finite value,
`OverflowError` on an infinity, `ValueError` on NaN. -/
def pyIntOfFloat : PyFloat → Except PyErr Int
  | .finite q => .ok (pyTrunc q)
  | .infinite _ => .error .overflowError
  | .nan => .error .valueError

/-- `strptime(l, "%Y%m%d")`: eight digits forming a calendar date
(encoded `yyyymmdd`). -/
def pyStrptimeYmd (l : List Char) : Option Nat :=
  if l.length = 8 ∧ allDigits l then
    let yn := digitsToNat (l.take 4)
    let mn := digitsToNat ((l.drop 4).take 2)
    let dn := digitsToNat (l.drop 6)
    if 1 ≤ yn ∧ 1 ≤ mn ∧ mn ≤ 12 ∧ 1 ≤ dn ∧ dn ≤ daysInMonth yn mn then
      some (yn * 10000 + mn * 100 + dn)
    else none
  else none

/-- `strptime(l, "%Y-%m-%d %H:%M:%S")` with a given separator between date
and time, encoded `yyyymmddhhmmss`. -/
def pyStrptimeFullSep (sep : Char) (l : List Char) : Option Nat :=
  if l.length = 19 then
    let da := (l.take 4) ++ ((l.drop 5).take 2) ++ ((l.drop 8).take 2)
    let h := (l.drop 11).take 2
    let mi := (l.drop 14).take 2
    let se := (l.drop 17).take 2
    if l.getD 4 ' ' == '-' && l.getD 7 ' ' == '-' && l.getD 10 ' ' == sep &&
        l.getD 13 ' ' == ':' && l.getD 16 ' ' == ':' && allDigits h && allDigits mi &&
        allDigits se then
      match pyStrptimeYmd da with
      | some dv =>
        if digitsToNat h ≤ 23 ∧ digitsToNat mi ≤ 59 ∧ digitsToNat se ≤ 59 then
          some (dv * 1000000 + digitsToNat h * 10000 + digitsToNat mi * 100 + digitsToNat se)
        else none
      | none => none
    else none
  else none

/-- `strptime(l, "%Y-%m-%d %H:%M:%S")`, raising `ValueError` on mismatch. -/
def pyStrptimeFullE (l : List Char) : Except PyErr Nat :=
  match pyStrptimeFullSep ' ' l with
  | some v => .ok v
  | none => .error .valueError

/-- `datetime.fromisoformat`: a plain date or a date with a `T`- or
space-separated time (offset suffixes as produced by the `Z` replacement
are rejected here; no claim depends on them).  Raises on anything else. -/
def pyFromIsoE (l : List Char) : Except PyErr Nat :=
  match pyStrptimeYmd ((splitChar '-' l).foldl (fun a p => a ++ p) []) with
  | some v => if l.length = 10 then .ok (v * 1000000) else .error .valueError
  | none =>
    match pyStrptimeFullSep ' ' l with
    | some v => .ok v
    | none =>
      match pyStrptimeFullSep 'T' l with
      | some v => .ok v
      | none => .error .valueError

/-- `safe_extract` of `load_manifest_xml.py`: the found element's text (as
`some (text or none)`) or `none` when the element is missing; a missing
element or falsy text yields the default, otherwise the stripped text. -/
def safe_extract (found : Option (Option String)) (default : Option String) : Option String :=
  match found with
  | some (some t) => if t == "" then default else some ⟨trimWs t.data⟩
  | some none => default
  | none => default

/-- `safe_int_extract` of `load_manifest_xml.py` applied to the extracted
value (a string, `""` when the element was absent): `int(float(value))`
with only `ValueError`/`TypeError` caught and turned into the default — an
`OverflowError` raised by `int()` on an infinite float (text such as
`inf`, `Infinity` or an overflowing exponent literal) is NOT caught and
propagates to the caller. -/
def safe_int_extract (value : String) (default : Int) : Except PyErr Int :=
  match (if value == "" then Except.ok default
         else (pyFloatE value).bind pyIntOfFloat) with
  | .ok n => .ok n
  | .error .valueError => .ok default
  | .error .typeError => .ok default
  | .error e => .error e

/-- `safe_float_extract` of `load_manifest_xml.py`: as `safe_int_extract`
but without the `int()` conversion, so `float()`'s `ValueError` is the only
exception that can arise and it is caught (an infinite or NaN float value
is simply returned). -/
def safe_float_extract (value : String) (default : PyFloat) : Except PyErr PyFloat :=
  match (if value == "" then Except.ok default else pyFloatE value) with
  | .ok q => .ok q
  | .error .valueError => .ok default
  | .error .typeError => .ok default
  | .error e => .error e

/-- `convert_date` of `load_manifest_xml.py`: first eight characters as
`%Y%m%d`, `ValueError` caught and turned into `None`. -/
def convert_date (s : String) : Except PyErr (Option Nat) :=
  if s == "" then .ok none
  else
    match (match pyStrptimeYmd (s.data.take 8) with
           | some v => Except.ok v
           | none => Except.error PyErr.valueError) with
    | .ok v => .ok (some v)
    | .error _ => .ok none

/-- `convert_timestamp` of `load_manifest_xml.py`: drop a fractional
suffix, strip, then an eight-digit date at midnight or the full
`%Y-%m-%d %H:%M:%S` form, `ValueError` caught and turned into `None`. -/
def convert_timestamp (s : String) : Except PyErr (Option Nat) :=
  if s == "" then .ok none
  else
    let t := trimWs ((splitChar '.' s.data).headD [])
    match (if t.length = 8 ∧ allDigits t then
             (match pyStrptimeYmd t with
              | some v => Except.ok (v * 1000000)
              | none => Except.error PyErr.valueError)
           else pyStrptimeFullE t) with
    | .ok v => .ok (some v)
    | .error _ => .ok none

/-- `'Z'` replaced by `'+00:00'` (`text.replace('Z', '+00:00')`). -/
def replaceZ (l : List Char) : List Char :=
  l.flatMap fun c => if c == 'Z' then "+00:00".data else [c]

/-- `parse_iso_datetime` of `boe_header_loader.py`: blank text is `None`;
otherwise `fromisoformat` with the `Z` replacement, falling back to
`strptime "%Y-%m-%d %H:%M:%S"`, every failure caught and turned into
`None`. -/
def parse_iso_datetime (s : Option String) : Except PyErr (Option Nat) :=
  match s with
  | none => .ok none
  | some t =>
    if t == "" ∨ trimWs t.data = [] then .ok none
    else
      let u := trimWs t.data
      match pyFromIsoE (replaceZ u) with
      | .ok v => .ok (some v)
      | .error _ =>
        match pyStrptimeFullE u with
        | .ok v => .ok (some v)
        | .error _ => .ok none

/-- `safe_int` of `boe_header_loader.py`:
`int(float(x)) if x and str(x).strip() else 0` — there is no `try/except`,
so a `ValueError` raised by `float` propagates to the caller. -/
def safe_int (x : Option String) : Except PyErr Int :=
  if truthy x && !(trimWs (x.getD "").data).isEmpty then
    (pyFloatE (x.getD "")).bind pyIntOfFloat
  else .ok 0

/-- `safe_float` of `boe_header_loader.py`:
`float(x) if x and str(x).strip() else None` — again without a handler. -/
def safe_float (x : Option String) : Except PyErr (Option PyFloat) :=
  if truthy x && !(trimWs (x.getD "").data).isEmpty then (pyFloatE (x.getD "")).map some
  else .ok none

/-! ### Streaming header loader — `boe_header_loader.stream_and_load` -/

/-- One `value` element of a streaming row: the `xsi:nil` marker and the
element text (`none` for an empty element). -/
structure XmlVal where
  nil : Bool
  text : Option String
deriving DecidableEq

/-- The value-list extraction of the row loop: a nil-marked value becomes
null, every other value contributes its text. -/
def extractValues (row : List XmlVal) : List (Option String) :=
  row.map fun v => if v.nil then none else v.text

/-- One row of the `boe_header` table, columns in INSERT order.  The
`ingested_at` column (`datetime.now()`) carries no document data and is
omitted. -/
structure BoeHeaderRec where
  declaration_date : Option Nat
  boe_approval_date : Option Nat
  regime : Option String
  boe_no : Option String
  bl_number : Option String
  importer_tin : Option String
  importer_name : Option String
  importer_address : Option String
  consignee_tin : Option String
  consignee_name : Option String
  consignee_address : Option String
  item_hs_code : Option String
  no_of_pkg : Int
  package_unit_cd : Option String
  item_description : Option String
  item_origin_country : Option String
  zone : Option String
  cpc : Option String
  gross_weight : Option PyFloat
  net_weight : Option PyFloat
  port_of_loading : Option String
  vessel_carrier : Option String
  discharge_terminal : Option String
  shipping_line_name : Option String
  cargo_type : Option String
  package_type : Option String
  gate_out_confirmation_date : Option Nat
  final_date_of_discharge : Option Nat
  country_of_shipment : Option String
  port_of_discharge : Option String
deriving DecidableEq

/-- The `record` tuple built from a row's value list (only called on lists
of at least 30 values).  `safe_int` / `safe_float` may raise; the date
positions go through the total `parse_iso_datetime`. -/
def buildRecord (values : List (Option String)) : Except PyErr BoeHeaderRec := do
  let v := fun i => values.getD i none
  let d0 ← parse_iso_datetime (v 0)
  let d1 ← parse_iso_datetime (v 1)
  let n12 ← safe_int (v 12)
  let f18 ← safe_float (v 18)
  let f19 ← safe_float (v 19)
  let d26 ← parse_iso_datetime (v 26)
  let d27 ← parse_iso_datetime (v 27)
  pure
    { declaration_date := d0, boe_approval_date := d1, regime := v 2, boe_no := v 3
      bl_number := v 4, importer_tin := v 5, importer_name := v 6, importer_address := v 7
      consignee_tin := v 8, consignee_name := v 9, consignee_address := v 10
      item_hs_code := v 11, no_of_pkg := n12, package_unit_cd := v 13
      item_description := v 14, item_origin_country := v 15, zone := v 16, cpc := v 17
      gross_weight := f18, net_weight := f19, port_of_loading := v 20
      vessel_carrier := v 21, discharge_terminal := v 22, shipping_line_name := v 23
      cargo_type := v 24, package_type := v 25, gate_out_confirmation_date := d26
      final_date_of_discharge := d27, country_of_shipment := v 28, port_of_discharge := v 29 }

/-- The row loop of `stream_and_load`: a row with fewer than 30 extracted
values is dropped (`continue`), every other row is built into a record and
counted.  `loaded` is incremented batch-wise in the source but its final
value equals the number of appended records.  An exception escaping the
loop rolls the transaction back and fails the file. -/
def streamLoop : List (List XmlVal) → List BoeHeaderRec → Nat →
    Except PyErr (List BoeHeaderRec × Nat)
  | [], acc, loaded => .ok (acc, loaded)
  | row :: rest, acc, loaded =>
    let values := extractValues row
    if values.length < 30 then streamLoop rest acc loaded
    else
      match buildRecord values with
      | .error e => .error e
      | .ok r => streamLoop rest (acc ++ [r]) (loaded + 1)

/-- `stream_and_load` on the parsed row elements of one file: an empty file
returns failure without touching the database; otherwise the row loop runs
and, on success, the inserted records are committed together with the final
loaded count.  `.error` is the `except` path: rollback, file failed. -/
def streamAndLoad (rows : List (List XmlVal)) : Except PyErr (List BoeHeaderRec × Nat) :=
  if rows.length = 0 then .error .valueError
  else streamLoop rows [] 0

/-! ## Helper lemmas — declaration loader -/

theorem processRecords_durable (recs : List BoeRec) : ∀ (c : PgConn) (ins sk : Nat),
    (processRecords c ins sk recs).conn.durable = c.durable := by
  induction recs with
  | nil => intro c ins sk; rfl
  | cons r rest ih =>
    intro c ins sk
    simp only [processRecords]
    split
    · exact ih _ _ _
    · split
      · exact ih _ _ _
      · split
        · exact ih _ _ _
        · split
          · rfl
          · split
            · exact ih _ _ _
            · exact ih _ _ _

theorem processRecords_aborted_id (recs : List BoeRec) : ∀ (c : PgConn) (ins sk : Nat),
    c.aborted = true → (processRecords c ins sk recs).conn = c := by
  induction recs with
  | nil => intro c ins sk _; rfl
  | cons r rest ih =>
    intro c ins sk h
    simp only [processRecords]
    split
    · exact ih _ _ _ h
    · split
      · exact ih _ _ _ h
      · split
        · exact ih _ _ _ h
        · split
          · show { c with aborted := true } = c
            cases c
            simp_all
          · rename_i hno
            rw [h] at hno
            simp at hno

theorem loadFileToDb_durable (c : PgConn) (file : Except Unit (List BoeRec)) :
    (loadFileToDb c file).conn.durable = c.durable := by
  cases file with
  | error e => rfl
  | ok recs =>
    simp only [loadFileToDb]
    split <;> exact processRecords_durable ..

/-! ## Helper lemmas — field coercions -/

theorem pyFloatE_error (s : String) (e : PyErr) (h : pyFloatE s = .error e) :
    e = PyErr.valueError := by
  unfold pyFloatE at h
  cases hx : pyFloat s with
  | some f => rw [hx] at h; cases h
  | none =>
    rw [hx] at h
    injection h with h
    exact h.symm

theorem safe_int_extract_cases (v : String) (d : Int) :
    (safe_int_extract v d).isOk = true ∨
      safe_int_extract v d = Except.error PyErr.overflowError := by
  unfold safe_int_extract
  by_cases hv : (v == "") = true
  · rw [if_pos hv]
    left; rfl
  · rw [if_neg hv]
    cases hx : (pyFloatE v).bind pyIntOfFloat with
    | ok n => left; rfl
    | error e =>
      cases e with
      | valueError => left; rfl
      | typeError => left; rfl
      | overflowError => right; rfl

theorem safe_float_extract_ok (v : String) (d : PyFloat) :
    (safe_float_extract v d).isOk = true := by
  unfold safe_float_extract
  by_cases hv : (v == "") = true
  · rw [if_pos hv]; rfl
  · rw [if_neg hv]
    cases hx : pyFloatE v with
    | ok q => rfl
    | error e =>
      have he := pyFloatE_error v e hx
      subst he
      rfl

theorem convert_date_ok (s : String) : (convert_date s).isOk = true := by
  unfold convert_date
  split
  · rfl
  · split <;> rfl

theorem convert_timestamp_ok (s : String) : (convert_timestamp s).isOk = true := by
  unfold convert_timestamp
  split
  · rfl
  · dsimp only
    split <;> rfl

theorem parse_iso_datetime_ok (s : Option String) :
    (parse_iso_datetime s).isOk = true := by
  cases s with
  | none => rfl
  | some t =>
    simp only [parse_iso_datetime]
    split
    · rfl
    · cases hx : pyFromIsoE (replaceZ (trimWs t.data)) with
      | error e =>
        simp only [hx]
        cases hy : pyStrptimeFullE (trimWs t.data) with
        | error e2 => simp [hy, Except.isOk, Except.toBool]
        | ok v => simp [hy, Except.isOk, Except.toBool]
      | ok v => simp [hx, Except.isOk, Except.toBool]

/-! ## Claim C7 -/

/-- C7, counterexample: `safe_int` of the streaming header loader is a
field coercion utility, yet on the non-numeric text `"abc"` it does not
return its default — `float("abc")` raises `ValueError` and no handler
catches it, so the exception propagates (`.error PyErr.valueError`). -/
theorem c7_counterexample : safe_int (some "abc") = Except.error PyErr.valueError := rfl

/-- C7 (amended): of the manifest loader's coercion utilities,
`safe_float_extract`, `convert_date` and `convert_timestamp` — and the
streaming header loader's `parse_iso_datetime` — swallow type/format errors
and return a value for every input string.  `safe_int_extract` catches only
`ValueError`/`TypeError`: on text that `float()` parses as an infinity
(`inf`, `Infinity`, an overflowing exponent literal) the `int()` call
raises an uncaught `OverflowError` which propagates — witnessed here on
the input `"inf"` — and on every other input it returns a value.  The
streaming loader's `safe_int`/`safe_float` have no handler at all and
propagate `ValueError` on non-blank non-numeric text (see the
counterexample). -/
theorem c7_total_coercions :
    (∀ v d, (safe_int_extract v d).isOk = true ∨
      safe_int_extract v d = Except.error PyErr.overflowError) ∧
    safe_int_extract "inf" 0 = Except.error PyErr.overflowError ∧
    (∀ v d, (safe_float_extract v d).isOk = true) ∧
    (∀ s, (convert_date s).isOk = true) ∧
    (∀ s, (convert_timestamp s).isOk = true) ∧
    (∀ s, (parse_iso_datetime s).isOk = true) :=
  ⟨safe_int_extract_cases, rfl, safe_float_extract_ok, convert_date_ok,
    convert_timestamp_ok, parse_iso_datetime_ok⟩

/-! ## Helper lemmas — manifest batch driver -/

theorem xmlFold_processed_mono (l : List XmlFile) : ∀ (st : XmlDirs) (n : String),
    n ∈ st.processedDir → n ∈ (l.foldl xmlStep st).processedDir := by
  induction l with
  | nil => intro st n h; exact h
  | cons g rest ih =>
    intro st n h
    refine ih (xmlStep st g) n ?_
    unfold xmlStep
    split
    · exact h
    · split
      · exact List.mem_append_left _ h
      · exact h

theorem xmlFold_input_anti (l : List XmlFile) : ∀ (st : XmlDirs) (n : String),
    n ∈ (l.foldl xmlStep st).inputDir → n ∈ st.inputDir := by
  induction l with
  | nil => intro st n h; exact h
  | cons g rest ih =>
    intro st n h
    have h1 := ih (xmlStep st g) n h
    revert h1
    unfold xmlStep
    split
    · exact id
    · split
      · intro h1
        exact (List.mem_filter.mp h1).1
      · exact id

theorem xmlFold_untouched (l : List XmlFile) : ∀ (st : XmlDirs) (n : String),
    (∀ g ∈ l, ¬(g.name = n)) →
    ((n ∈ (l.foldl xmlStep st).inputDir ↔ n ∈ st.inputDir) ∧
      (n ∈ (l.foldl xmlStep st).processedDir ↔ n ∈ st.processedDir)) := by
  induction l with
  | nil => intro st n _; exact ⟨Iff.rfl, Iff.rfl⟩
  | cons g rest ih =>
    intro st n hnames
    have hg : ¬(g.name = n) := hnames g (List.mem_cons_self ..)
    have hrest : ∀ g' ∈ rest, ¬(g'.name = n) := fun g' hmem => hnames g' (List.mem_cons_of_mem _ hmem)
    have := ih (xmlStep st g) n hrest
    refine ⟨this.1.trans ?_, this.2.trans ?_⟩ <;> unfold xmlStep
    · split
      · exact Iff.rfl
      · split
        · constructor
          · intro h1; exact (List.mem_filter.mp h1).1
          · intro h1
            refine List.mem_filter.mpr ⟨h1, ?_⟩
            simp only [Bool.not_eq_eq_eq_not, Bool.not_true, beq_eq_false_iff_ne, ne_eq]
            intro heq
            exact hg heq.symm
        · exact Iff.rfl
    · split
      · exact Iff.rfl
      · split
        · constructor
          · intro h1
            rcases List.mem_append.mp h1 with h2 | h2
            · exact h2
            · exact absurd (List.mem_singleton.mp h2).symm hg
          · intro h1; exact List.mem_append_left _ h1
        · exact Iff.rfl

theorem xmlFold_route (l : List XmlFile) : ∀ (st : XmlDirs) (f : XmlFile),
    f ∈ l → (l.map (·.name)).Nodup →
    f.name ∈ st.inputDir → f.name ∉ st.processedDir →
    (f.ingestOk = true → f.name ∈ (l.foldl xmlStep st).processedDir ∧
      f.name ∉ (l.foldl xmlStep st).inputDir) ∧
    (f.ingestOk = false → f.name ∈ (l.foldl xmlStep st).inputDir ∧
      f.name ∉ (l.foldl xmlStep st).processedDir) := by
  induction l with
  | nil => intro st f hf; exact absurd hf (List.not_mem_nil f)
  | cons g rest ih =>
    intro st f hf hnodup hin hnotp
    have hnodup' := hnodup
    rw [List.map_cons, List.nodup_cons] at hnodup'
    rcases List.mem_cons.mp hf with rfl | hf'
    · -- the file is processed by this very iteration
      have hpresent : (st.inputDir.any (· == f.name)) = true :=
        List.any_eq_true.mpr ⟨f.name, hin, by simp⟩
      have hrestnames : ∀ g' ∈ rest, ¬(g'.name = f.name) := by
        intro g' hg' heq
        exact hnodup'.1 (heq ▸ List.mem_map_of_mem (·.name) hg')
      have huntouched := xmlFold_untouched rest (xmlStep st f) f.name hrestnames
      constructor
      · intro hok
        have hstep : xmlStep st f =
            { st with
              inputDir := st.inputDir.filter fun n => !(n == f.name)
              processedDir := st.processedDir ++ [f.name]
              processedCount := st.processedCount + 1 } := by
          unfold xmlStep
          rw [hpresent, hok]
          simp
        constructor
        · refine huntouched.2.mpr ?_
          rw [hstep]
          exact List.mem_append_right _ (List.mem_singleton.mpr rfl)
        · intro hcontra
          have := huntouched.1.mp hcontra
          rw [hstep] at this
          simp only [List.mem_filter] at this
          simp at this
      · intro hbad
        have hstep : xmlStep st f = { st with errorCount := st.errorCount + 1 } := by
          unfold xmlStep
          rw [hpresent, hbad]
          simp
        constructor
        · refine huntouched.1.mpr ?_
          rw [hstep]
          exact hin
        · intro hcontra
          have := huntouched.2.mp hcontra
          rw [hstep] at this
          exact hnotp this
    · -- the file is processed later in the loop
      have hgname : ¬(g.name = f.name) := by
        intro heq
        exact hnodup'.1 (heq ▸ List.mem_map_of_mem (·.name) hf')
      have hin1 : f.name ∈ (xmlStep st g).inputDir := by
        unfold xmlStep
        split
        · exact hin
        · split
          · refine List.mem_filter.mpr ⟨hin, ?_⟩
            simp only [Bool.not_eq_eq_eq_not, Bool.not_true, beq_eq_false_iff_ne, ne_eq]
            intro heq
            exact hgname heq.symm
          · exact hin
      have hnotp1 : f.name ∉ (xmlStep st g).processedDir := by
        unfold xmlStep
        split
        · exact hnotp
        · split
          · intro hcontra
            rcases List.mem_append.mp hcontra with h2 | h2
            · exact hnotp h2
            · exact hgname (List.mem_singleton.mp h2).symm
          · exact hnotp
      exact ih (xmlStep st g) f hf' hnodup'.2 hin1 hnotp1

/-! ## Claim C6 -/

/-- C6, counterexample: a manifest file whose ingestion fails is not moved
anywhere — after the run it is still in the input directory, the processed
directory is empty and no error directory exists in the driver; the claim
that a failed file is moved into a separate error directory is false. -/
theorem c6_counterexample :
    (processXmlFiles [⟨"M1.xml", false⟩]).inputDir = ["M1.xml"] ∧
    (processXmlFiles [⟨"M1.xml", false⟩]).processedDir = [] ∧
    (processXmlFiles [⟨"M1.xml", false⟩]).errorCount = 1 := by decide

/-- C6 (amended): for distinct file names, a successfully ingested file is
moved into the processed directory (and leaves the input directory), while
a file whose ingestion fails stays in the input directory and is moved
nowhere (only the error counter is incremented). -/
theorem c6_file_routing (files : List XmlFile) (hnodup : (files.map (·.name)).Nodup)
    (f : XmlFile) (hf : f ∈ files) :
    (f.ingestOk = true → f.name ∈ (processXmlFiles files).processedDir ∧
      f.name ∉ (processXmlFiles files).inputDir) ∧
    (f.ingestOk = false → f.name ∈ (processXmlFiles files).inputDir ∧
      f.name ∉ (processXmlFiles files).processedDir) := by
  have hperm : List.Perm (sortHMNDOCFirst files) files := List.filter_append_perm _ files
  have hmem : f ∈ sortHMNDOCFirst files := hperm.mem_iff.mpr hf
  have hnodup2 : ((sortHMNDOCFirst files).map (·.name)).Nodup :=
    ((hperm.map (·.name)).nodup_iff).mpr hnodup
  exact xmlFold_route (sortHMNDOCFirst files) ⟨files.map (·.name), [], 0, 0⟩ f hmem hnodup2
    (List.mem_map_of_mem (·.name) hf) (List.not_mem_nil _)

/-- C6 witness: a concrete two-file run — the successful file ends up in
the processed directory, the failed file stays in the input directory. -/
theorem c6_witness :
    ("A.XML" ∈ (processXmlFiles [⟨"A.XML", true⟩, ⟨"B.xml", false⟩]).processedDir ∧
      "A.XML" ∉ (processXmlFiles [⟨"A.XML", true⟩, ⟨"B.xml", false⟩]).inputDir) ∧
    ("B.xml" ∈ (processXmlFiles [⟨"A.XML", true⟩, ⟨"B.xml", false⟩]).inputDir ∧
      "B.xml" ∉ (processXmlFiles [⟨"A.XML", true⟩, ⟨"B.xml", false⟩]).processedDir) :=
  ⟨(c6_file_routing [⟨"A.XML", true⟩, ⟨"B.xml", false⟩] (by decide) ⟨"A.XML", true⟩
      (by decide)).1 rfl,
    (c6_file_routing [⟨"A.XML", true⟩, ⟨"B.xml", false⟩] (by decide) ⟨"B.xml", false⟩
      (by decide)).2 rfl⟩

/-! ## Helper lemmas — declaration loader, fault-free runs -/

theorem processRecords_ok (recs : List BoeRec) : ∀ (c : PgConn) (ins sk : Nat),
    c.aborted = false → (∀ x ∈ recs, x.dbFault = false) →
    (processRecords c ins sk recs).ok = true ∧
    (processRecords c ins sk recs).conn.aborted = false := by
  induction recs with
  | nil => intro c ins sk hab _; exact ⟨rfl, hab⟩
  | cons r rest ih =>
    intro c ins sk hab hf
    have hfr : r.dbFault = false := hf r (List.mem_cons_self ..)
    have hfrest : ∀ x ∈ rest, x.dbFault = false := fun x hx => hf x (List.mem_cons_of_mem _ hx)
    simp only [processRecords]
    split
    · exact ih _ _ _ hab hfrest
    · split
      · exact ih _ _ _ hab hfrest
      · split
        · exact ih _ _ _ hab hfrest
        · split
          · rename_i habort
            rw [hab, hfr] at habort
            simp at habort
          · split
            · exact ih _ _ _ hab hfrest
            · exact ih _ _ _ hab hfrest

theorem validRec_parts (r : BoeRec) (h : validRec r = true) :
    truthy r.boeDate = true ∧ (∃ d, parseDateDMY (r.boeDate.getD "") = some d) ∧
    truthy r.crn = true ∧ truthy r.boeNo = true := by
  simp only [validRec, Bool.and_eq_true, Option.isSome_iff_exists] at h
  exact ⟨h.1.1.1, h.1.1.2, h.1.2, h.2⟩

theorem processRecords_cons_invalid (r : BoeRec) (rest : List BoeRec) (c : PgConn)
    (ins sk : Nat) (h : validRec r = false) :
    processRecords c ins sk (r :: rest) = processRecords c ins (sk + 1) rest := by
  simp only [processRecords]
  by_cases hd : truthy r.boeDate
  · cases hp : parseDateDMY (r.boeDate.getD "") with
    | none => simp [hd, hp]
    | some d =>
      have hk : (!truthy r.crn || !truthy r.boeNo) = true := by
        simp only [validRec, hd, hp, Option.isSome_some, Bool.true_and,
          Bool.and_eq_false_iff] at h
        rcases h with h | h <;> simp [h]
      simp [hd, hp, hk]
  · simp only [Bool.not_eq_true] at hd
    simp [hd]

theorem processRecords_cons_valid (r : BoeRec) (rest : List BoeRec) (c : PgConn)
    (ins sk : Nat) (d : Nat) (h : validRec r = true)
    (hparse : parseDateDMY (r.boeDate.getD "") = some d)
    (hab : c.aborted = false) (hfr : r.dbFault = false) :
    processRecords c ins sk (r :: rest) =
      (if boeKeyPresent c (r.crn.getD "") (r.boeNo.getD "") then
        processRecords c (ins + 1) sk rest
      else
        processRecords
          { c with pending := c.pending ++ [⟨r.crn.getD "", r.boeNo.getD "", d, r.blNumber⟩] }
          (ins + 1) sk rest) := by
  obtain ⟨hd, _, hcrn, hboe⟩ := validRec_parts r h
  simp only [processRecords]
  simp [hd, hparse, hcrn, hboe, hab, hfr]

theorem processRecords_counts (recs : List BoeRec) : ∀ (c : PgConn) (ins sk : Nat),
    c.aborted = false → (∀ x ∈ recs, x.dbFault = false) →
    (processRecords c ins sk recs).insCount = ins + (recs.filter validRec).length ∧
    (processRecords c ins sk recs).skipCount = sk + (recs.filter (fun x => !validRec x)).length := by
  induction recs with
  | nil => intro c ins sk _ _; exact ⟨rfl, rfl⟩
  | cons r rest ih =>
    intro c ins sk hab hf
    have hfr : r.dbFault = false := hf r (List.mem_cons_self ..)
    have hfrest : ∀ x ∈ rest, x.dbFault = false := fun x hx => hf x (List.mem_cons_of_mem _ hx)
    by_cases hv : validRec r = true
    · obtain ⟨_, ⟨d, hparse⟩, _, _⟩ := validRec_parts r hv
      rw [processRecords_cons_valid r rest c ins sk d hv hparse hab hfr]
      split
      · obtain ⟨hi, hs⟩ := ih c (ins + 1) sk hab hfrest
        refine ⟨hi.trans ?_, hs.trans ?_⟩ <;> (simp [List.filter_cons, hv]; try omega)
      · obtain ⟨hi, hs⟩ :=
          ih { c with pending := c.pending ++ [⟨r.crn.getD "", r.boeNo.getD "", d, r.blNumber⟩] }
            (ins + 1) sk hab hfrest
        refine ⟨hi.trans ?_, hs.trans ?_⟩ <;> (simp [List.filter_cons, hv]; try omega)
    · rw [Bool.not_eq_true] at hv
      rw [processRecords_cons_invalid r rest c ins sk hv]
      obtain ⟨hi, hs⟩ := ih c ins (sk + 1) hab hfrest
      refine ⟨hi.trans ?_, hs.trans ?_⟩ <;> (simp [List.filter_cons, hv]; try omega)

theorem processRecords_pending (recs : List BoeRec) : ∀ (c : PgConn) (ins sk : Nat),
    c.aborted = false → (∀ x ∈ recs, x.dbFault = false) →
    ∃ new, (processRecords c ins sk recs).conn.pending = c.pending ++ new ∧
      new.length ≤ (recs.filter validRec).length := by
  induction recs with
  | nil =>
    intro c ins sk _ _
    exact ⟨[], by simp [processRecords], by simp⟩
  | cons r rest ih =>
    intro c ins sk hab hf
    have hfr : r.dbFault = false := hf r (List.mem_cons_self ..)
    have hfrest : ∀ x ∈ rest, x.dbFault = false := fun x hx => hf x (List.mem_cons_of_mem _ hx)
    by_cases hv : validRec r = true
    · obtain ⟨_, ⟨d, hparse⟩, _, _⟩ := validRec_parts r hv
      rw [processRecords_cons_valid r rest c ins sk d hv hparse hab hfr]
      split
      · obtain ⟨new, hp, hl⟩ := ih c (ins + 1) sk hab hfrest
        refine ⟨new, hp, ?_⟩
        simp [List.filter_cons, hv]
        omega
      · obtain ⟨new, hp, hl⟩ :=
          ih { c with pending := c.pending ++ [⟨r.crn.getD "", r.boeNo.getD "", d, r.blNumber⟩] }
            (ins + 1) sk hab hfrest
        refine ⟨⟨r.crn.getD "", r.boeNo.getD "", d, r.blNumber⟩ :: new, ?_, ?_⟩
        · rw [hp]
          simp
        · simp [List.filter_cons, hv]
          omega
    · rw [Bool.not_eq_true] at hv
      rw [processRecords_cons_invalid r rest c ins sk hv]
      obtain ⟨new, hp, hl⟩ := ih c ins (sk + 1) hab hfrest
      refine ⟨new, hp, ?_⟩
      simp [List.filter_cons, hv]
      omega

theorem boeKeyPresent_ext (c c' : PgConn) (a b : String)
    (hd : c'.durable = c.durable) (hp : ∃ new, c'.pending = c.pending ++ new)
    (h : boeKeyPresent c a b = true) : boeKeyPresent c' a b = true := by
  obtain ⟨new, hnew⟩ := hp
  obtain ⟨r, hr, hmatch⟩ := List.any_eq_true.mp h
  refine List.any_eq_true.mpr ⟨r, ?_, hmatch⟩
  unfold connRows at hr ⊢
  rw [hd, hnew]
  simp only [List.mem_append] at hr ⊢
  tauto

theorem processRecords_keys_present (recs : List BoeRec) : ∀ (c : PgConn) (ins sk : Nat),
    c.aborted = false → (∀ x ∈ recs, x.dbFault = false) →
    ∀ r ∈ recs, validRec r = true →
      boeKeyPresent (processRecords c ins sk recs).conn (r.crn.getD "") (r.boeNo.getD "") = true := by
  induction recs with
  | nil => intro c ins sk _ _ r hr; exact absurd hr (List.not_mem_nil r)
  | cons r0 rest ih =>
    intro c ins sk hab hf r hr hv
    have hfr : r0.dbFault = false := hf r0 (List.mem_cons_self ..)
    have hfrest : ∀ x ∈ rest, x.dbFault = false := fun x hx => hf x (List.mem_cons_of_mem _ hx)
    by_cases hv0 : validRec r0 = true
    · obtain ⟨_, ⟨d, hparse⟩, _, _⟩ := validRec_parts r0 hv0
      rw [processRecords_cons_valid r0 rest c ins sk d hv0 hparse hab hfr]
      split
      · rename_i hpres
        rcases List.mem_cons.mp hr with rfl | hr'
        · obtain ⟨new, hnew, _⟩ := processRecords_pending rest c (ins + 1) sk hab hfrest
          exact boeKeyPresent_ext c _ _ _ (processRecords_durable rest c (ins + 1) sk)
            ⟨new, hnew⟩ hpres
        · exact ih c (ins + 1) sk hab hfrest r hr' hv
      · rename_i hpres
        set c1 : PgConn :=
          { c with pending := c.pending ++ [⟨r0.crn.getD "", r0.boeNo.getD "", d, r0.blNumber⟩] }
          with hc1
        rcases List.mem_cons.mp hr with rfl | hr'
        · have hkey : boeKeyPresent c1 (r.crn.getD "") (r.boeNo.getD "") = true := by
            refine List.any_eq_true.mpr ⟨⟨r.crn.getD "", r.boeNo.getD "", d, r.blNumber⟩, ?_, by simp⟩
            simp [hc1, connRows]
          obtain ⟨new, hnew, _⟩ := processRecords_pending rest c1 (ins + 1) sk hab hfrest
          exact boeKeyPresent_ext c1 _ _ _ (processRecords_durable rest c1 (ins + 1) sk)
            ⟨new, hnew⟩ hkey
        · exact ih c1 (ins + 1) sk hab hfrest r hr' hv
    · rw [Bool.not_eq_true] at hv0
      rw [processRecords_cons_invalid r0 rest c ins sk hv0]
      rcases List.mem_cons.mp hr with rfl | hr'
      · rw [hv] at hv0
        cases hv0
      · exact ih c ins (sk + 1) hab hfrest r hr' hv

theorem processRecords_all_present (recs : List BoeRec) : ∀ (c : PgConn) (ins sk : Nat),
    c.aborted = false → (∀ x ∈ recs, x.dbFault = false) →
    (∀ r ∈ recs, validRec r = true →
      boeKeyPresent c (r.crn.getD "") (r.boeNo.getD "") = true) →
    (processRecords c ins sk recs).conn = c := by
  induction recs with
  | nil => intro c ins sk _ _ _; rfl
  | cons r0 rest ih =>
    intro c ins sk hab hf hpres
    have hfr : r0.dbFault = false := hf r0 (List.mem_cons_self ..)
    have hfrest : ∀ x ∈ rest, x.dbFault = false := fun x hx => hf x (List.mem_cons_of_mem _ hx)
    have hprest : ∀ r ∈ rest, validRec r = true →
        boeKeyPresent c (r.crn.getD "") (r.boeNo.getD "") = true :=
      fun r hr => hpres r (List.mem_cons_of_mem _ hr)
    by_cases hv0 : validRec r0 = true
    · obtain ⟨_, ⟨d, hparse⟩, _, _⟩ := validRec_parts r0 hv0
      rw [processRecords_cons_valid r0 rest c ins sk d hv0 hparse hab hfr]
      have hp0 := hpres r0 (List.mem_cons_self ..) hv0
      rw [if_pos hp0]
      exact ih c (ins + 1) sk hab hfrest hprest
    · rw [Bool.not_eq_true] at hv0
      rw [processRecords_cons_invalid r0 rest c ins sk hv0]
      exact ih c ins (sk + 1) hab hfrest hprest

theorem processRecords_nodup (recs : List BoeRec) : ∀ (c : PgConn) (ins sk : Nat),
    c.aborted = false → (∀ x ∈ recs, x.dbFault = false) →
    (connKeys c).Nodup → (connKeys (processRecords c ins sk recs).conn).Nodup := by
  induction recs with
  | nil => intro c ins sk _ _ h; exact h
  | cons r0 rest ih =>
    intro c ins sk hab hf hnd
    have hfr : r0.dbFault = false := hf r0 (List.mem_cons_self ..)
    have hfrest : ∀ x ∈ rest, x.dbFault = false := fun x hx => hf x (List.mem_cons_of_mem _ hx)
    by_cases hv0 : validRec r0 = true
    · obtain ⟨_, ⟨d, hparse⟩, _, _⟩ := validRec_parts r0 hv0
      rw [processRecords_cons_valid r0 rest c ins sk d hv0 hparse hab hfr]
      split
      · exact ih c (ins + 1) sk hab hfrest hnd
      · rename_i hpres
        refine ih _ (ins + 1) sk hab hfrest ?_
        have hnotin : (r0.crn.getD "", r0.boeNo.getD "") ∉ connKeys c := by
          intro hcontra
          obtain ⟨row, hrow, hkey⟩ := List.mem_map.mp hcontra
          refine hpres (List.any_eq_true.mpr ⟨row, hrow, ?_⟩)
          have h1 : row.crn = r0.crn.getD "" := congrArg Prod.fst hkey
          have h2 : row.boe_no = r0.boeNo.getD "" := congrArg Prod.snd hkey
          simp [h1, h2]
        have : connKeys { c with pending :=
            c.pending ++ [⟨r0.crn.getD "", r0.boeNo.getD "", d, r0.blNumber⟩] } =
            connKeys c ++ [(r0.crn.getD "", r0.boeNo.getD "")] := by
          simp [connKeys, connRows]
        rw [this]
        simp only [List.nodup_append, List.nodup_cons, List.nodup_nil]
        exact ⟨hnd, by simp, by simpa using fun hmem => hnotin hmem⟩
    · rw [Bool.not_eq_true] at hv0
      rw [processRecords_cons_invalid r0 rest c ins sk hv0]
      exact ih c ins (sk + 1) hab hfrest hnd

theorem filter_partition_length (l : List BoeRec) (p : BoeRec → Bool) :
    (l.filter p).length + (l.filter fun x => !p x).length = l.length := by
  induction l with
  | nil => rfl
  | cons x xs ih =>
    by_cases h : p x = true <;> simp [List.filter_cons, h] <;> omega

theorem loadFileToDb_run (c : PgConn) (recs : List BoeRec)
    (hab : c.aborted = false) (hf : ∀ x ∈ recs, x.dbFault = false) :
    loadFileToDb c (.ok recs) = processRecords c 0 0 recs := by
  simp [loadFileToDb, (processRecords_ok recs c 0 0 hab hf).1]

/-! ## Claim C3 -/

/-- C3: ingesting the same declaration record list twice yields exactly the
same visible row count as ingesting it once (the second pass finds every
valid record's (CRN, BOE number) key already present and `ON CONFLICT DO
NOTHING` suppresses every insert); a key pair is inserted at most once
(distinctness of stored keys is preserved), and the first pass only appends
rows — it never updates an existing one. -/
theorem c3_idempotent (c : PgConn) (recs : List BoeRec)
    (hab : c.aborted = false) (hf : ∀ x ∈ recs, x.dbFault = false) :
    (connRows (loadFileToDb (loadFileToDb c (.ok recs)).conn (.ok recs)).conn).length =
      (connRows (loadFileToDb c (.ok recs)).conn).length ∧
    ((connKeys c).Nodup → (connKeys (loadFileToDb c (.ok recs)).conn).Nodup) ∧
    (∃ new, connRows (loadFileToDb c (.ok recs)).conn = connRows c ++ new) := by
  rw [loadFileToDb_run c recs hab hf]
  have hab1 : (processRecords c 0 0 recs).conn.aborted = false :=
    (processRecords_ok recs c 0 0 hab hf).2
  rw [loadFileToDb_run _ recs hab1 hf]
  refine ⟨?_, ?_, ?_⟩
  · rw [processRecords_all_present recs (processRecords c 0 0 recs).conn 0 0 hab1 hf
      (fun r hr hv => processRecords_keys_present recs c 0 0 hab hf r hr hv)]
  · intro hnd
    exact processRecords_nodup recs c 0 0 hab hf hnd
  · obtain ⟨new, hnew, _⟩ := processRecords_pending recs c 0 0 hab hf
    refine ⟨new, ?_⟩
    unfold connRows
    rw [processRecords_durable recs c 0 0, hnew, List.append_assoc]

/-- C3 witness: a concrete two-record file, ingested twice from an empty
table — the row count after the second ingestion equals the count after the
first. -/
theorem c3_witness :
    (connRows (loadFileToDb (loadFileToDb ⟨[], [], false⟩
        (.ok [⟨some "05/06/2021", some "300", some "11", some "BL1", false⟩,
              ⟨some "05/06/2021", some "300", some "12", none, false⟩])).conn
      (.ok [⟨some "05/06/2021", some "300", some "11", some "BL1", false⟩,
            ⟨some "05/06/2021", some "300", some "12", none, false⟩])).conn).length =
      (connRows (loadFileToDb ⟨[], [], false⟩
        (.ok [⟨some "05/06/2021", some "300", some "11", some "BL1", false⟩,
              ⟨some "05/06/2021", some "300", some "12", none, false⟩])).conn).length :=
  (c3_idempotent ⟨[], [], false⟩
    [⟨some "05/06/2021", some "300", some "11", some "BL1", false⟩,
     ⟨some "05/06/2021", some "300", some "12", none, false⟩] rfl (by decide)).1

/-! ## Claim C8 -/

/-- C8: for a declaration file with `N` records of which exactly `K` lack a
CRN or BOE number while all other records are well-formed, the loader
reports a skip count of `K` (each such record is counted and processing
continues) and the visible table grows by at most `N - K` rows. -/
theorem c8_skip_counting (c : PgConn) (recs : List BoeRec) (N K : Nat)
    (hab : c.aborted = false) (hf : ∀ x ∈ recs, x.dbFault = false)
    (hN : recs.length = N) (hK : (recs.filter lacksKey).length = K)
    (hwf : ∀ r ∈ recs, lacksKey r = false →
      truthy r.boeDate = true ∧ (parseDateDMY (r.boeDate.getD "")).isSome = true) :
    (loadFileToDb c (.ok recs)).skipCount = K ∧
    (connRows (loadFileToDb c (.ok recs)).conn).length ≤ (connRows c).length + (N - K) := by
  rw [loadFileToDb_run c recs hab hf]
  have hpoint : ∀ r ∈ recs, (!validRec r) = lacksKey r := by
    intro r hr
    by_cases hl : lacksKey r = true
    · rw [hl]
      simp only [lacksKey, Bool.or_eq_true, Bool.not_eq_eq_eq_not, Bool.not_true] at hl
      rcases hl with h1 | h1 <;> simp [validRec, h1]
    · rw [Bool.not_eq_true] at hl
      obtain ⟨hd, hp⟩ := hwf r hr hl
      simp only [lacksKey, Bool.or_eq_false_iff] at hl
      have hcrn : truthy r.crn = true := by simpa using hl.1
      have hboe : truthy r.boeNo = true := by simpa using hl.2
      simp [validRec, lacksKey, hd, hp, hcrn, hboe]
  have hfilter : (recs.filter fun x => !validRec x) = recs.filter lacksKey :=
    List.filter_congr hpoint
  have hcounts := processRecords_counts recs c 0 0 hab hf
  constructor
  · rw [hcounts.2, hfilter, hK]
    omega
  · obtain ⟨new, hnew, hlen⟩ := processRecords_pending recs c 0 0 hab hf
    have hvalid : (recs.filter validRec).length = N - K := by
      have := filter_partition_length recs validRec
      have hinv : (recs.filter fun x => !validRec x).length = K := by rw [hfilter, hK]
      omega
    have hrows : (connRows (processRecords c 0 0 recs).conn).length =
        (connRows c).length + new.length := by
      unfold connRows
      rw [processRecords_durable recs c 0 0, hnew]
      simp [Nat.add_assoc]
    omega

/-- C8 witness: a concrete file with `N = 3` records of which `K = 2` lack
a CRN or a BOE number — the reported skip count is 2 and at most one row is
added. -/
theorem c8_witness :
    (loadFileToDb ⟨[], [], false⟩
      (.ok [⟨some "10/10/2020", some "400", some "1", none, false⟩,
            ⟨some "10/10/2020", none, some "2", none, false⟩,
            ⟨some "10/10/2020", some "401", some "", none, false⟩])).skipCount = 2 ∧
    (connRows (loadFileToDb ⟨[], [], false⟩
      (.ok [⟨some "10/10/2020", some "400", some "1", none, false⟩,
            ⟨some "10/10/2020", none, some "2", none, false⟩,
            ⟨some "10/10/2020", some "401", some "", none, false⟩])).conn).length ≤
      (connRows ⟨[], [], false⟩).length + (3 - 2) :=
  c8_skip_counting ⟨[], [], false⟩
    [⟨some "10/10/2020", some "400", some "1", none, false⟩,
     ⟨some "10/10/2020", none, some "2", none, false⟩,
     ⟨some "10/10/2020", some "401", some "", none, false⟩] 3 2
    rfl (by decide) (by decide) (by decide) (by decide)

/-! ## Claim C10 -/

/-- C10: the per-file insert count returned by `load_file_to_db` counts
every record that passed validation and reached the INSERT, including
records whose insert was suppressed by `ON CONFLICT DO NOTHING`; for a file
with two records sharing (CRN `100`, BOE `5`) the reported count is 2 while
only one row is stored. -/
theorem c10_insert_count :
    (∀ (c : PgConn) (recs : List BoeRec), c.aborted = false →
      (∀ x ∈ recs, x.dbFault = false) →
      (loadFileToDb c (.ok recs)).insCount = (recs.filter validRec).length) ∧
    (loadFileToDb ⟨[], [], false⟩
      (.ok [⟨some "01/01/2020", some "100", some "5", none, false⟩,
            ⟨some "01/01/2020", some "100", some "5", none, false⟩])).insCount = 2 ∧
    (connRows (loadFileToDb ⟨[], [], false⟩
      (.ok [⟨some "01/01/2020", some "100", some "5", none, false⟩,
            ⟨some "01/01/2020", some "100", some "5", none, false⟩])).conn).length = 1 := by
  refine ⟨?_, by decide, by decide⟩
  intro c recs hab hf
  rw [loadFileToDb_run c recs hab hf]
  have := (processRecords_counts recs c 0 0 hab hf).1
  omega

/-- C10 witness: the general count statement applied at a concrete
single-record file. -/
theorem c10_witness :
    (loadFileToDb ⟨[], [], false⟩
      (.ok [⟨some "02/03/2021", some "9", some "1", none, false⟩])).insCount =
      ([⟨some "02/03/2021", some "9", some "1", none, false⟩].filter validRec).length :=
  c10_insert_count.1 ⟨[], [], false⟩
    [⟨some "02/03/2021", some "9", some "1", none, false⟩] rfl (by decide)

/-! ## Helper lemmas — declaration batch driver -/

theorem mainLoaderRun_durable (files : List DeclFile) : ∀ (st : LoaderState),
    (files.foldl mainLoaderStep st).conn.durable = st.conn.durable := by
  induction files with
  | nil => intro st; rfl
  | cons f rest ih =>
    intro st
    rw [List.foldl_cons, ih]
    exact loadFileToDb_durable st.conn f.content

theorem mainLoaderRun_moved (files : List DeclFile) : ∀ (st : LoaderState),
    (files.foldl mainLoaderStep st).moved = st.moved ++ files.map (·.name) := by
  induction files with
  | nil => intro st; simp
  | cons f rest ih =>
    intro st
    rw [List.foldl_cons, ih]
    simp [mainLoaderStep]

/-! ## Claim C5 -/

/-- C5, counterexample: two files on one batch; file 1 alone commits its
row, but when file 2 raises a database error the whole batch's single
commit persists nothing — file 1's writes are rolled back together with
file 2's, contradicting "rolls back only that file's writes, committed per
file"; both files are still moved to the processed folder. -/
theorem c5_counterexample :
    (mainLoader [] [⟨"f1", .ok [⟨some "01/01/2020", some "100", some "5", none, false⟩]⟩]).1 =
      [⟨"100", "5", 20200101, none⟩] ∧
    (mainLoader [] [⟨"f1", .ok [⟨some "01/01/2020", some "100", some "5", none, false⟩]⟩,
      ⟨"f2", .ok [⟨some "01/01/2020", some "200", some "7", none, true⟩]⟩]).1 = [] ∧
    (mainLoader [] [⟨"f1", .ok [⟨some "01/01/2020", some "100", some "5", none, false⟩]⟩,
      ⟨"f2", .ok [⟨some "01/01/2020", some "200", some "7", none, true⟩]⟩]).2.1 =
      ["f1", "f2"] := by
  refine ⟨?_, ?_, ?_⟩ <;> rfl

/-- C5 (amended): all files of a batch share one connection and one
transaction, committed once after the whole batch; a database failure while
processing one file is swallowed by the per-file handler and the driver
continues to (and still relocates) every remaining file, but the shared
transaction is aborted, so the single commit persists nothing from the
whole batch — not only the failed file's writes are lost. -/
theorem c5_single_transaction (initDurable : List BoeRow) (files : List DeclFile)
    (h : (mainLoaderRun initDurable files).conn.aborted = true) :
    (mainLoader initDurable files).1 = initDurable ∧
    (mainLoader initDurable files).2.1 = files.map (·.name) := by
  constructor
  · show pgCommit (mainLoaderRun initDurable files).conn = initDurable
    unfold pgCommit
    rw [if_pos h]
    exact mainLoaderRun_durable files ⟨⟨initDurable, [], false⟩, [], 0⟩
  · show (mainLoaderRun initDurable files).moved = files.map (·.name)
    have := mainLoaderRun_moved files ⟨⟨initDurable, [], false⟩, [], 0⟩
    simpa using this

/-- C5 witness: the amended statement applied at a concrete two-file batch
whose second file raises a database error. -/
theorem c5_witness :
    (mainLoader [] [⟨"g1", .ok [⟨some "02/02/2022", some "500", some "8", none, false⟩]⟩,
      ⟨"g2", .ok [⟨some "02/02/2022", some "501", some "9", none, true⟩]⟩]).1 = [] ∧
    (mainLoader [] [⟨"g1", .ok [⟨some "02/02/2022", some "500", some "8", none, false⟩]⟩,
      ⟨"g2", .ok [⟨some "02/02/2022", some "501", some "9", none, true⟩]⟩]).2.1 =
      ["g1", "g2"] :=
  c5_single_transaction []
    [⟨"g1", .ok [⟨some "02/02/2022", some "500", some "8", none, false⟩]⟩,
     ⟨"g2", .ok [⟨some "02/02/2022", some "501", some "9", none, true⟩]⟩] (by decide)

/-! ## Claim C2 -/

/-- C2: for every manifest header data column and any stored row (the base
document populated it), ingesting a further manifest document (amendment or
otherwise) whose incoming value for that column is null leaves the stored
value unchanged, and one whose incoming value is non-null overwrites the
stored value with it.  Null incoming values arise only for the date columns
(`convert_date` yields null); text columns always arrive non-null (possibly
`""`), which is why the unconditional overwrite of `document_type` /
`document_name` in the SQL never overwrites a stored value with null. -/
theorem c2_header_merge (r : HeaderRow) (p : ParsedHeader) (f : HField) :
    (incomingOf p f = none → ingestHeaderPhase p (some r) f = r f) ∧
    (∀ v, incomingOf p f = some v → ingestHeaderPhase p (some r) f = some v) := by
  constructor
  · intro h
    unfold ingestHeaderPhase
    by_cases hc : (p.document_type = "AMNDOC" ∨ p.document_type = "ADLDOC") ∧
        p.vessel_name = ""
    · rw [if_pos hc]
      cases f <;> simp_all [headerUpsertRow, incomingOf, pendingIncoming, coalesce]
    · rw [if_neg hc]
      cases f <;> simp_all [headerUpsertRow, incomingOf, coalesce]
  · intro v h
    unfold ingestHeaderPhase
    by_cases hc : (p.document_type = "AMNDOC" ∨ p.document_type = "ADLDOC") ∧
        p.vessel_name = ""
    · rw [if_pos hc]
      cases f <;> simp_all [headerUpsertRow, incomingOf, pendingIncoming, coalesce] <;>
        (obtain ⟨a, ha, rfl⟩ := h; simp [ha])
    · rw [if_neg hc]
      cases f <;> simp_all [headerUpsertRow, incomingOf, coalesce] <;>
        (obtain ⟨a, ha, rfl⟩ := h; simp [ha])

/-- C2 witness: a concrete amendment without vessel name and with a null
`eta` merged over a populated row — the stored `eta` survives; its
non-null `voyage_no` overwrites. -/
theorem c2_witness :
    (incomingOf ⟨"CRN1", "AMNDOC", "", "", "", "", "", "[]", "R1", none, "", "V9", "", "", "",
        "", "", "", "", "", "", "", "", "", "", none, none, none⟩ HField.eta = none ∧
      ingestHeaderPhase ⟨"CRN1", "AMNDOC", "", "", "", "", "", "[]", "R1", none, "", "V9", "",
          "", "", "", "", "", "", "", "", "", "", "", "", none, none, none⟩
        (some fun _ => some (HVal.date 20200101)) HField.eta =
        (fun _ => some (HVal.date 20200101) : HeaderRow) HField.eta) ∧
    ingestHeaderPhase ⟨"CRN1", "AMNDOC", "", "", "", "", "", "[]", "R1", none, "", "V9", "",
        "", "", "", "", "", "", "", "", "", "", "", "", none, none, none⟩
      (some fun _ => some (HVal.date 20200101)) HField.voyage_no = some (HVal.str "V9") :=
  ⟨⟨rfl, (c2_header_merge (fun _ => some (HVal.date 20200101))
      ⟨"CRN1", "AMNDOC", "", "", "", "", "", "[]", "R1", none, "", "V9", "", "", "", "", "",
        "", "", "", "", "", "", "", "", none, none, none⟩ HField.eta).1 rfl⟩,
    (c2_header_merge (fun _ => some (HVal.date 20200101))
      ⟨"CRN1", "AMNDOC", "", "", "", "", "", "[]", "R1", none, "", "V9", "", "", "", "", "",
        "", "", "", "", "", "", "", "", none, none, none⟩ HField.voyage_no).2
      (HVal.str "V9") rfl⟩

/-! ## Helper lemmas — BL versioning invariant -/

theorem blGroup_append (xs ys : List BLRow) (bl crn : String) :
    blGroup (xs ++ ys) bl crn = blGroup xs bl crn ++ blGroup ys bl crn := by
  simp [blGroup, List.filter_append]

theorem latestGroupOk_congr (rows1 rows2 : List BLRow) (bl crn : String)
    (h : blGroup rows1 bl crn = blGroup rows2 bl crn) :
    latestGroupOk rows1 bl crn = latestGroupOk rows2 bl crn := by
  simp [latestGroupOk, latestCount, lastIsLatest, h]

theorem blGroup_map_keep (f : BLRow → BLRow)
    (hkeys : ∀ r, (f r).bl_number = r.bl_number ∧ (f r).crn = r.crn)
    (b c : String) : ∀ rows : List BLRow,
    blGroup (rows.map f) b c = (blGroup rows b c).map f := by
  intro rows
  induction rows with
  | nil => rfl
  | cons r rest ih =>
    simp only [List.map_cons, blGroup, List.filter_cons] at ih ⊢
    have hpred : (((f r).bl_number == b) && ((f r).crn == c)) =
        ((r.bl_number == b) && (r.crn == c)) := by
      rw [(hkeys r).1, (hkeys r).2]
    by_cases hp : ((r.bl_number == b) && (r.crn == c)) = true
    · rw [hpred, if_pos hp, if_pos hp, List.map_cons]
      exact congrArg (f r :: ·) ih
    · rw [hpred, if_neg hp, if_neg hp]
      exact ih

theorem updatePrev_is_map (rows : List BLRow) (bl crn : String) :
    updatePrevBLVersion rows bl crn = rows.map fun r =>
      if r.bl_number == bl && r.crn == crn && r.latest_bl then { r with latest_bl := false }
      else r := rfl

theorem blGroup_update_same (bl crn : String) : ∀ rows : List BLRow,
    blGroup (updatePrevBLVersion rows bl crn) bl crn =
      (blGroup rows bl crn).map clearLatest := by
  intro rows
  rw [updatePrev_is_map, blGroup_map_keep _ (fun r => ⟨by split <;> rfl, by split <;> rfl⟩)]
  refine List.map_congr_left ?_
  intro r hr
  have hpred := (List.mem_filter.mp hr).2
  show (if r.bl_number == bl && r.crn == crn && r.latest_bl then { r with latest_bl := false }
    else r) = clearLatest r
  rw [hpred, Bool.true_and]
  rfl

theorem blGroup_update_other (bl crn b c : String) (hne : ¬(bl = b ∧ crn = c)) :
    ∀ rows : List BLRow,
    blGroup (updatePrevBLVersion rows bl crn) b c = blGroup rows b c := by
  intro rows
  rw [updatePrev_is_map, blGroup_map_keep _ (fun r => ⟨by split <;> rfl, by split <;> rfl⟩)]
  have hid : ∀ r ∈ blGroup rows b c,
      (if r.bl_number == bl && r.crn == crn && r.latest_bl then { r with latest_bl := false }
       else r) = r := by
    intro r hr
    have hpred := (List.mem_filter.mp hr).2
    rcases Bool.and_eq_true .. |>.mp hpred with ⟨h1, h2⟩
    have hb : r.bl_number = b := by simpa using h1
    have hc : r.crn = c := by simpa using h2
    have hcond : (r.bl_number == bl && r.crn == crn && r.latest_bl) = false := by
      by_cases hb2 : bl = b
      · have hc2 : ¬(crn = c) := fun hx => hne ⟨hb2, hx⟩
        have hcc : (r.crn == crn) = false := by
          rw [hc]
          exact beq_eq_false_iff_ne.mpr (fun hx => hc2 hx.symm)
        simp [hcc]
      · have hbb : (r.bl_number == bl) = false := by
          rw [hb]
          exact beq_eq_false_iff_ne.mpr (fun hx => hb2 hx.symm)
        simp [hbb]
    rw [hcond]
    rfl
  rw [List.map_congr_left hid, List.map_id']

theorem map_clearLatest_no_latest : ∀ l : List BLRow,
    (l.map clearLatest).filter (fun r => r.latest_bl) = [] := by
  intro l
  induction l with
  | nil => rfl
  | cons r rest ih =>
    by_cases h : r.latest_bl = true <;> simp [clearLatest, h, ih]

theorem blGroup_empty_of_not_exists (rows : List BLRow) (bl crn : String)
    (h : checkBLExists rows bl crn = false) : blGroup rows bl crn = [] := by
  induction rows with
  | nil => rfl
  | cons r rest ih =>
    simp only [checkBLExists, List.any_cons, Bool.or_eq_false_iff] at h
    simp only [blGroup, List.filter_cons, h.1]
    exact ih (by simp [checkBLExists, h.2])

theorem latestGroupOk_build (rows : List BLRow) (b c : String)
    (hcount : latestCount rows b c = 1) (hlast : lastIsLatest rows b c = true) :
    latestGroupOk rows b c = true := by
  unfold latestGroupOk
  rw [hcount, hlast]
  simp

theorem insertNewBL_conflict (rows : List BLRow) (crn : String) (bl : BLEntry)
    (h : (rows.any fun r => r.bl_number == bl.bl_number &&
      r.bl_version_no == bl.bl_version_no) = true) :
    insertNewBL rows crn bl = (rows, false) := by
  unfold insertNewBL
  rw [if_pos h]

theorem insertNewBL_fresh (rows : List BLRow) (crn : String) (bl : BLEntry)
    (h : (rows.any fun r => r.bl_number == bl.bl_number &&
      r.bl_version_no == bl.bl_version_no) = false) :
    insertNewBL rows crn bl =
      (rows ++ [⟨crn, bl.bl_number, bl.bl_version_no, true⟩], true) := by
  unfold insertNewBL
  rw [if_neg (by simp [h])]

theorem newRowGroup_same (crn : String) (bl : BLEntry) (b c : String)
    (hb : bl.bl_number = b ∧ crn = c) :
    blGroup [⟨crn, bl.bl_number, bl.bl_version_no, true⟩] b c =
      [⟨crn, bl.bl_number, bl.bl_version_no, true⟩] := by
  simp [blGroup, hb.1, hb.2]

theorem newRowGroup_other (crn : String) (bl : BLEntry) (b c : String)
    (hb : ¬(bl.bl_number = b ∧ crn = c)) :
    blGroup [⟨crn, bl.bl_number, bl.bl_version_no, true⟩] b c = [] := by
  have hpredf : ((bl.bl_number == b) && (crn == c)) = false := by
    by_cases hb2 : bl.bl_number = b
    · have hc2 : ¬(crn = c) := fun hx => hb ⟨hb2, hx⟩
      simp [hb2, hc2]
    · simp [hb2]
  simp [blGroup, hpredf]

theorem processBL_inv (dt crn : String) (rows : List BLRow) (bl : BLEntry)
    (hInv : ∀ b c, latestGroupOk rows b c = true)
    (hok : (processBL dt crn rows bl).2.2 = true) :
    ∀ b c, latestGroupOk (processBL dt crn rows bl).1 b c = true := by
  intro b c
  unfold processBL at hok ⊢
  by_cases hdt : (dt == "HMNDOC") = true
  · rw [if_pos hdt] at hok ⊢
    by_cases hex : checkBLExists rows bl.bl_number crn = true
    · rw [if_pos hex] at hok ⊢
      exact hInv b c
    · rw [if_neg hex] at hok ⊢
      rw [Bool.not_eq_true] at hex
      cases hconf : (rows.any fun r => r.bl_number == bl.bl_number &&
          r.bl_version_no == bl.bl_version_no) with
      | true =>
        rw [insertNewBL_conflict rows crn bl hconf] at hok
        exact absurd hok (by simp)
      | false =>
        rw [insertNewBL_fresh rows crn bl hconf]
        by_cases hb : bl.bl_number = b ∧ crn = c
        · have hempty : blGroup rows b c = [] := by
            rw [← hb.1, ← hb.2]
            exact blGroup_empty_of_not_exists rows bl.bl_number crn hex
          refine latestGroupOk_build _ b c ?_ ?_
          · unfold latestCount
            rw [blGroup_append, hempty, List.nil_append, newRowGroup_same crn bl b c hb]
            rfl
          · unfold lastIsLatest
            rw [blGroup_append, hempty, List.nil_append, newRowGroup_same crn bl b c hb]
            rfl
        · rw [latestGroupOk_congr _ rows b c
            (by rw [blGroup_append, newRowGroup_other crn bl b c hb, List.append_nil])]
          exact hInv b c
  · rw [if_neg hdt] at hok ⊢
    by_cases hamn : (dt == "AMNDOC" || dt == "ADLDOC") = true
    · rw [if_pos hamn] at hok ⊢
      cases hconf : ((updatePrevBLVersion rows bl.bl_number crn).any fun r =>
          r.bl_number == bl.bl_number && r.bl_version_no == bl.bl_version_no) with
      | true =>
        rw [insertNewBL_conflict _ crn bl hconf] at hok
        exact absurd hok (by simp)
      | false =>
        rw [insertNewBL_fresh _ crn bl hconf]
        by_cases hb : bl.bl_number = b ∧ crn = c
        · have hupd : blGroup (updatePrevBLVersion rows bl.bl_number crn) b c =
              (blGroup rows b c).map clearLatest := by
            rw [← hb.1, ← hb.2]
            exact blGroup_update_same bl.bl_number crn rows
          refine latestGroupOk_build _ b c ?_ ?_
          · unfold latestCount
            rw [blGroup_append, hupd, newRowGroup_same crn bl b c hb, List.filter_append,
              map_clearLatest_no_latest]
            rfl
          · unfold lastIsLatest
            rw [blGroup_append, hupd, newRowGroup_same crn bl b c hb, List.getLast?_concat]
        · have hother : blGroup (updatePrevBLVersion rows bl.bl_number crn) b c =
              blGroup rows b c :=
            blGroup_update_other bl.bl_number crn b c hb rows
          rw [latestGroupOk_congr _ rows b c
            (by rw [blGroup_append, newRowGroup_other crn bl b c hb, List.append_nil, hother])]
          exact hInv b c
    · rw [if_neg hamn] at hok ⊢
      exact hInv b c

theorem blIngest_inv (dt crn : String) : ∀ (bls : List BLEntry) (rows : List BLRow),
    (∀ b c, latestGroupOk rows b c = true) →
    (blIngest dt crn rows bls).2.2 = true →
    ∀ b c, latestGroupOk (blIngest dt crn rows bls).1 b c = true := by
  intro bls
  induction bls with
  | nil => intro rows hInv _ b c; exact hInv b c
  | cons bl rest ih =>
    intro rows hInv hok b c
    simp only [blIngest] at hok ⊢
    rw [Bool.and_eq_true] at hok
    exact ih (processBL dt crn rows bl).1
      (processBL_inv dt crn rows bl hInv hok.1) hok.2 b c

theorem ingestManifest_inv (db : ManifestDB) (d : ParsedManifest)
    (hInv : ∀ b c, latestGroupOk db.bl_rows b c = true)
    (hok : (ingestManifest db d).2.2 = true) :
    ∀ b c, latestGroupOk (ingestManifest db d).1.bl_rows b c = true := by
  intro b c
  unfold ingestManifest at hok ⊢
  by_cases hcrn : (d.crn == "") = true
  · rw [if_pos hcrn] at hok ⊢
    exact hInv b c
  · rw [if_neg hcrn] at hok ⊢
    exact blIngest_inv d.document_type d.crn d.bl_list db.bl_rows hInv hok b c

theorem runManifests_inv : ∀ (docs : List ParsedManifest) (db : ManifestDB),
    (∀ b c, latestGroupOk db.bl_rows b c = true) →
    (runManifests db docs).2 = true →
    ∀ b c, latestGroupOk (runManifests db docs).1.bl_rows b c = true := by
  intro docs
  induction docs with
  | nil => intro db hInv _ b c; exact hInv b c
  | cons d rest ih =>
    intro db hInv hok b c
    simp only [runManifests] at hok ⊢
    rw [Bool.and_eq_true] at hok
    exact ih (ingestManifest db d).1 (ingestManifest_inv db d hInv hok.1) hok.2 b c

/-! ## Claim C1 -/

/-- C1, counterexample: re-ingesting the same amendment (CRN `C1`, BL `B1`,
version 1) makes `UPDATE_PREV_BL_VERSION_SQL` clear the flag on the stored
row while `ON CONFLICT (bl_number, bl_version_no) DO NOTHING` suppresses
the re-insert — afterwards the BL has a stored row but zero rows with
`latest_bl = true`, so "exactly one" fails for this ingestion sequence. -/
theorem c1_counterexample :
    latestGroupOk
      (runManifests emptyManifestDB
        [⟨"AMNDOC", "C1", [⟨"B1", 1⟩], [], []⟩,
         ⟨"AMNDOC", "C1", [⟨"B1", 1⟩], [], []⟩]).1.bl_rows "B1" "C1" = false ∧
    (blGroup (runManifests emptyManifestDB
        [⟨"AMNDOC", "C1", [⟨"B1", 1⟩], [], []⟩,
         ⟨"AMNDOC", "C1", [⟨"B1", 1⟩], [], []⟩]).1.bl_rows "B1" "C1").isEmpty = false ∧
    latestCount (runManifests emptyManifestDB
        [⟨"AMNDOC", "C1", [⟨"B1", 1⟩], [], []⟩,
         ⟨"AMNDOC", "C1", [⟨"B1", 1⟩], [], []⟩]).1.bl_rows "B1" "C1" = 0 := by
  refine ⟨?_, ?_, ?_⟩ <;> rfl

/-- C1 (amended): starting from an empty store, after any sequence of
base/amendment manifest ingestions in which no BL insert was suppressed by
the `ON CONFLICT (bl_number, bl_version_no) DO NOTHING` clause (the
sequence never re-presents an already-stored (BL number, version) pair),
every (BL number, CRN) with at least one stored row has exactly one row
with `latest_bl = true`, and it is the most recently inserted row of that
BL (rows are stored in insertion order; the flagged row is the last). -/
theorem c1_latest_invariant (docs : List ParsedManifest)
    (hok : (runManifests emptyManifestDB docs).2 = true) (bl crn : String) :
    latestGroupOk (runManifests emptyManifestDB docs).1.bl_rows bl crn = true :=
  runManifests_inv docs emptyManifestDB (fun _ _ => rfl) hok bl crn

/-- C1 witness: a base document establishing version 1 followed by an
amendment inserting version 2 — conflict-free, and the (B1, C1) group
satisfies the single-latest invariant. -/
theorem c1_witness :
    (runManifests emptyManifestDB
      [⟨"HMNDOC", "C1", [⟨"B1", 1⟩], [], []⟩,
       ⟨"AMNDOC", "C1", [⟨"B1", 2⟩], [], []⟩]).2 = true ∧
    latestGroupOk (runManifests emptyManifestDB
      [⟨"HMNDOC", "C1", [⟨"B1", 1⟩], [], []⟩,
       ⟨"AMNDOC", "C1", [⟨"B1", 2⟩], [], []⟩]).1.bl_rows "B1" "C1" = true :=
  ⟨by decide,
    c1_latest_invariant
      [⟨"HMNDOC", "C1", [⟨"B1", 1⟩], [], []⟩,
       ⟨"AMNDOC", "C1", [⟨"B1", 2⟩], [], []⟩] (by decide) "B1" "C1"⟩

/-! ## Helper lemmas — manifest child replacement -/

theorem childKeyIs_eq (bl : String) (ver : Int) (c : ChildEntry)
    (h : childKeyIs bl ver c = true) : c.bl_number = bl ∧ c.bl_version_no = ver := by
  simpa [childKeyIs] using h

theorem childCount_append (xs ys : List ChildEntry) (bl : String) (ver : Int) :
    childCount (xs ++ ys) bl ver = childCount xs bl ver + childCount ys bl ver := by
  simp [childCount, List.filter_append]

theorem childCount_filter_eq (q : ChildEntry → Bool) (bl : String) (ver : Int) (b : Bool)
    (hq : ∀ c, childKeyIs bl ver c = true → q c = b) :
    ∀ l : List ChildEntry,
    childCount (l.filter q) bl ver = if b = true then childCount l bl ver else 0 := by
  intro l
  induction l with
  | nil => cases b <;> simp [childCount]
  | cons x xs ih =>
    by_cases hk : childKeyIs bl ver x = true
    · have hqx := hq x hk
      cases b
      · rw [List.filter_cons, if_neg (by simp [hqx])]
        simpa using ih
      · rw [List.filter_cons, if_pos hqx]
        simp only [childCount, List.filter_cons, hk, if_true] at ih ⊢
        simp at ih ⊢
        omega
    · rw [Bool.not_eq_true] at hk
      by_cases hqx : q x = true
      · rw [List.filter_cons, if_pos hqx]
        cases b <;>
          (simp only [childCount, List.filter_cons, hk, Bool.false_eq_true, if_false]
            at ih ⊢; simpa using ih)
      · rw [Bool.not_eq_true] at hqx
        rw [List.filter_cons, if_neg (by simp [hqx])]
        cases b <;>
          (simp only [childCount, List.filter_cons, hk, Bool.false_eq_true, if_false]
            at ih ⊢; simpa using ih)

theorem keyMem_append (xs ys : List (String × Int)) (bl : String) (ver : Int) :
    keyMem (xs ++ ys) bl ver = (keyMem xs bl ver || keyMem ys bl ver) := by
  simp [keyMem, List.any_append]

theorem deleteChildren_count (bl : String) (ver : Int) :
    ∀ (keys : List (String × Int)) (store : List ChildEntry),
    childCount (deleteChildren keys store) bl ver =
      if keyMem keys bl ver = true then 0 else childCount store bl ver := by
  intro keys
  induction keys with
  | nil => intro store; simp [deleteChildren, keyMem]
  | cons k ks ih =>
    intro store
    show childCount (deleteChildren ks (store.filter fun c => !(childKeyIs k.1 k.2 c)))
      bl ver = _
    rw [ih]
    have hfilter : childCount (store.filter fun c => !(childKeyIs k.1 k.2 c)) bl ver =
        if (!(bl == k.1 && ver == k.2)) = true then childCount store bl ver else 0 := by
      refine childCount_filter_eq _ bl ver (!(bl == k.1 && ver == k.2)) ?_ store
      intro c hc
      obtain ⟨h1, h2⟩ := childKeyIs_eq bl ver c hc
      simp [childKeyIs, h1, h2]
    rw [hfilter]
    by_cases hm : keyMem ks bl ver = true
    · have hcons : keyMem (k :: ks) bl ver = true := by
        rw [show k :: ks = [k] ++ ks from rfl, keyMem_append, hm, Bool.or_true]
      rw [if_pos hm, if_pos hcons]
    · have hmf : keyMem ks bl ver = false := by rwa [Bool.not_eq_true] at hm
      rw [if_neg hm]
      have hcons : keyMem (k :: ks) bl ver = ((k.1 == bl) && (k.2 == ver)) := by
        rw [show k :: ks = [k] ++ ks from rfl, keyMem_append, hmf, Bool.or_false]
        simp [keyMem]
      rw [hcons]
      by_cases h1 : k.1 = bl <;> by_cases h2 : k.2 = ver
      · simp [h1, h2]
      · have h2' : ¬(ver = k.2) := fun hx => h2 hx.symm
        simp [h1, h2, h2']
      · have h1' : ¬(bl = k.1) := fun hx => h1 hx.symm
        simp [h1, h1', h2]
      · have h1' : ¬(bl = k.1) := fun hx => h1 hx.symm
        simp [h1, h1']

theorem filterMem_count (bl : String) (ver : Int) (keys : List (String × Int))
    (inc : List ChildEntry) :
    childCount (inc.filter fun c => keyMem keys c.bl_number c.bl_version_no) bl ver =
      if keyMem keys bl ver = true then childCount inc bl ver else 0 := by
  refine childCount_filter_eq _ bl ver (keyMem keys bl ver) ?_ inc
  intro c hc
  obtain ⟨h1, h2⟩ := childKeyIs_eq bl ver c hc
  rw [h1, h2]

theorem replaceChildren_count (keys : List (String × Int)) (store inc : List ChildEntry)
    (bl : String) (ver : Int) :
    childCount (replaceChildren keys store inc) bl ver =
      if keyMem keys bl ver = true then childCount inc bl ver
      else childCount store bl ver := by
  unfold replaceChildren
  rw [childCount_append, deleteChildren_count, filterMem_count]
  by_cases hm : keyMem keys bl ver = true <;> simp [hm]

/-! ## Helper lemmas — processed-key lists of the BL phase -/

theorem processBL_hmndoc_exists (crn : String) (rows : List BLRow) (bl : BLEntry)
    (hex : checkBLExists rows bl.bl_number crn = true) :
    processBL "HMNDOC" crn rows bl = (rows, false, true) := by
  unfold processBL
  rw [if_pos (by decide), if_pos hex]

theorem processBL_hmndoc_insert (crn : String) (rows : List BLRow) (bl : BLEntry)
    (hex : checkBLExists rows bl.bl_number crn = false) :
    processBL "HMNDOC" crn rows bl =
      ((insertNewBL rows crn bl).1, true, (insertNewBL rows crn bl).2) := by
  unfold processBL
  rw [if_pos (by decide), if_neg (by simp [hex])]

theorem processBL_amn (dt crn : String) (rows : List BLRow) (bl : BLEntry)
    (h1 : (dt == "HMNDOC") = false) (h2 : (dt == "AMNDOC" || dt == "ADLDOC") = true) :
    processBL dt crn rows bl =
      ((insertNewBL (updatePrevBLVersion rows bl.bl_number crn) crn bl).1, true,
        (insertNewBL (updatePrevBLVersion rows bl.bl_number crn) crn bl).2) := by
  unfold processBL
  rw [if_neg (by simp [h1]), if_pos h2]

theorem processBL_other (dt crn : String) (rows : List BLRow) (bl : BLEntry)
    (h1 : (dt == "HMNDOC") = false) (h2 : (dt == "AMNDOC" || dt == "ADLDOC") = false) :
    processBL dt crn rows bl = (rows, false, true) := by
  unfold processBL
  rw [if_neg (by simp [h1]), if_neg (by simp [h2])]

theorem checkBLExists_mono (rowsA rowsB : List BLRow) (bl crn : String)
    (hsub : ∀ r ∈ rowsA, r ∈ rowsB)
    (h : checkBLExists rowsA bl crn = true) : checkBLExists rowsB bl crn = true := by
  obtain ⟨r, hr, hm⟩ := List.any_eq_true.mp h
  exact List.any_eq_true.mpr ⟨r, hsub r hr, hm⟩

theorem blIngest_keys_amn (dt crn : String) (h1 : (dt == "HMNDOC") = false)
    (h2 : (dt == "AMNDOC" || dt == "ADLDOC") = true) :
    ∀ (bls : List BLEntry) (rows : List BLRow),
    (blIngest dt crn rows bls).2.1 = bls.map fun bl => (bl.bl_number, bl.bl_version_no) := by
  intro bls
  induction bls with
  | nil => intro rows; rfl
  | cons bl rest ih =>
    intro rows
    show (if (processBL dt crn rows bl).2.1 then [(bl.bl_number, bl.bl_version_no)] else []) ++
      (blIngest dt crn (processBL dt crn rows bl).1 rest).2.1 = _
    rw [processBL_amn dt crn rows bl h1 h2]
    simp only [if_true, List.map_cons]
    rw [ih]
    rfl

theorem blIngest_keys_other (dt crn : String) (h1 : (dt == "HMNDOC") = false)
    (h2 : (dt == "AMNDOC" || dt == "ADLDOC") = false) :
    ∀ (bls : List BLEntry) (rows : List BLRow),
    (blIngest dt crn rows bls).1 = rows ∧ (blIngest dt crn rows bls).2.1 = [] := by
  intro bls
  induction bls with
  | nil => intro rows; exact ⟨rfl, rfl⟩
  | cons bl rest ih =>
    intro rows
    constructor
    · show (blIngest dt crn (processBL dt crn rows bl).1 rest).1 = rows
      rw [processBL_other dt crn rows bl h1 h2]
      exact (ih rows).1
    · show (if (processBL dt crn rows bl).2.1 then [(bl.bl_number, bl.bl_version_no)] else []) ++
        (blIngest dt crn (processBL dt crn rows bl).1 rest).2.1 = []
      rw [processBL_other dt crn rows bl h1 h2]
      simp only [Bool.false_eq_true, if_false, List.nil_append]
      exact (ih rows).2

theorem blIngest_hmndoc_mono (crn : String) : ∀ (bls : List BLEntry) (rows : List BLRow),
    ∃ t, (blIngest "HMNDOC" crn rows bls).1 = rows ++ t := by
  intro bls
  induction bls with
  | nil => intro rows; exact ⟨[], by simp [blIngest]⟩
  | cons bl rest ih =>
    intro rows
    show ∃ t, (blIngest "HMNDOC" crn (processBL "HMNDOC" crn rows bl).1 rest).1 = rows ++ t
    by_cases hex : checkBLExists rows bl.bl_number crn = true
    · rw [processBL_hmndoc_exists crn rows bl hex]
      exact ih rows
    · rw [Bool.not_eq_true] at hex
      rw [processBL_hmndoc_insert crn rows bl hex]
      cases hconf : (rows.any fun r => r.bl_number == bl.bl_number &&
          r.bl_version_no == bl.bl_version_no) with
      | true =>
        rw [insertNewBL_conflict rows crn bl hconf]
        exact ih rows
      | false =>
        rw [insertNewBL_fresh rows crn bl hconf]
        obtain ⟨t, ht⟩ := ih (rows ++ [⟨crn, bl.bl_number, bl.bl_version_no, true⟩])
        exact ⟨[⟨crn, bl.bl_number, bl.bl_version_no, true⟩] ++ t, by
          rw [ht, List.append_assoc]⟩

theorem insertNewBL_mono (rows : List BLRow) (crn : String) (bl : BLEntry) :
    ∀ r ∈ rows, r ∈ (insertNewBL rows crn bl).1 := by
  intro r hr
  unfold insertNewBL
  split
  · exact hr
  · exact List.mem_append_left _ hr

theorem blIngest_hmndoc_keys_subset (crn : String) : ∀ (bls : List BLEntry)
    (rowsA rowsB : List BLRow),
    (∀ r, r ∈ (blIngest "HMNDOC" crn rowsA bls).1 → r ∈ rowsB) →
    ∀ bl ver, keyMem (blIngest "HMNDOC" crn rowsB bls).2.1 bl ver = true →
      keyMem (blIngest "HMNDOC" crn rowsA bls).2.1 bl ver = true := by
  intro bls
  induction bls with
  | nil => intro rowsA rowsB _ bl ver h; exact h
  | cons bl0 rest ih =>
    intro rowsA rowsB hsub bl ver hmem
    have hsubA : ∀ r ∈ rowsA, r ∈ rowsB := by
      intro r hr
      obtain ⟨t, ht⟩ := blIngest_hmndoc_mono crn (bl0 :: rest) rowsA
      exact hsub r (by rw [ht]; exact List.mem_append_left _ hr)
    by_cases hexA : checkBLExists rowsA bl0.bl_number crn = true
    · have hexB : checkBLExists rowsB bl0.bl_number crn = true :=
        checkBLExists_mono rowsA rowsB bl0.bl_number crn hsubA hexA
      have hA : (blIngest "HMNDOC" crn rowsA (bl0 :: rest)).2.1 =
          (blIngest "HMNDOC" crn rowsA rest).2.1 := by
        show ((if (processBL "HMNDOC" crn rowsA bl0).2.1 then
          [(bl0.bl_number, bl0.bl_version_no)] else []) ++
          (blIngest "HMNDOC" crn (processBL "HMNDOC" crn rowsA bl0).1 rest).2.1) = _
        rw [processBL_hmndoc_exists crn rowsA bl0 hexA]
        simp
      have hB : (blIngest "HMNDOC" crn rowsB (bl0 :: rest)).2.1 =
          (blIngest "HMNDOC" crn rowsB rest).2.1 := by
        show ((if (processBL "HMNDOC" crn rowsB bl0).2.1 then
          [(bl0.bl_number, bl0.bl_version_no)] else []) ++
          (blIngest "HMNDOC" crn (processBL "HMNDOC" crn rowsB bl0).1 rest).2.1) = _
        rw [processBL_hmndoc_exists crn rowsB bl0 hexB]
        simp
      rw [hB] at hmem
      rw [hA]
      refine ih rowsA rowsB ?_ bl ver hmem
      intro r hr
      apply hsub r
      show r ∈ (blIngest "HMNDOC" crn (processBL "HMNDOC" crn rowsA bl0).1 rest).1
      rw [processBL_hmndoc_exists crn rowsA bl0 hexA]
      exact hr
    · rw [Bool.not_eq_true] at hexA
      have hA : (blIngest "HMNDOC" crn rowsA (bl0 :: rest)).2.1 =
          [(bl0.bl_number, bl0.bl_version_no)] ++
            (blIngest "HMNDOC" crn (insertNewBL rowsA crn bl0).1 rest).2.1 := by
        show ((if (processBL "HMNDOC" crn rowsA bl0).2.1 then
          [(bl0.bl_number, bl0.bl_version_no)] else []) ++
          (blIngest "HMNDOC" crn (processBL "HMNDOC" crn rowsA bl0).1 rest).2.1) = _
        rw [processBL_hmndoc_insert crn rowsA bl0 hexA]
        simp
      have hsubA' : ∀ r, r ∈ (blIngest "HMNDOC" crn (insertNewBL rowsA crn bl0).1 rest).1 →
          r ∈ rowsB := by
        intro r hr
        apply hsub r
        show r ∈ (blIngest "HMNDOC" crn (processBL "HMNDOC" crn rowsA bl0).1 rest).1
        rw [processBL_hmndoc_insert crn rowsA bl0 hexA]
        exact hr
      rw [hA, keyMem_append]
      by_cases hk0 : ((bl0.bl_number == bl) && (bl0.bl_version_no == ver)) = true
      · have : keyMem [(bl0.bl_number, bl0.bl_version_no)] bl ver = true := by
          simp only [keyMem, List.any_cons, List.any_nil, Bool.or_false]
          exact hk0
        rw [this, Bool.true_or]
      · have hk0f : keyMem [(bl0.bl_number, bl0.bl_version_no)] bl ver = false := by
          simp only [keyMem, List.any_cons, List.any_nil, Bool.or_false]
          rwa [Bool.not_eq_true] at hk0
        rw [hk0f, Bool.false_or]
        by_cases hexB : checkBLExists rowsB bl0.bl_number crn = true
        · have hB : (blIngest "HMNDOC" crn rowsB (bl0 :: rest)).2.1 =
              (blIngest "HMNDOC" crn rowsB rest).2.1 := by
            show ((if (processBL "HMNDOC" crn rowsB bl0).2.1 then
              [(bl0.bl_number, bl0.bl_version_no)] else []) ++
              (blIngest "HMNDOC" crn (processBL "HMNDOC" crn rowsB bl0).1 rest).2.1) = _
            rw [processBL_hmndoc_exists crn rowsB bl0 hexB]
            simp
          rw [hB] at hmem
          exact ih (insertNewBL rowsA crn bl0).1 rowsB hsubA' bl ver hmem
        · rw [Bool.not_eq_true] at hexB
          have hB : (blIngest "HMNDOC" crn rowsB (bl0 :: rest)).2.1 =
              [(bl0.bl_number, bl0.bl_version_no)] ++
                (blIngest "HMNDOC" crn (insertNewBL rowsB crn bl0).1 rest).2.1 := by
            show ((if (processBL "HMNDOC" crn rowsB bl0).2.1 then
              [(bl0.bl_number, bl0.bl_version_no)] else []) ++
              (blIngest "HMNDOC" crn (processBL "HMNDOC" crn rowsB bl0).1 rest).2.1) = _
            rw [processBL_hmndoc_insert crn rowsB bl0 hexB]
            simp
          rw [hB, keyMem_append, hk0f, Bool.false_or] at hmem
          refine ih (insertNewBL rowsA crn bl0).1 (insertNewBL rowsB crn bl0).1 ?_ bl ver hmem
          intro r hr
          exact insertNewBL_mono rowsB crn bl0 r (hsubA' r hr)

theorem blIngest_keys_subset (dt crn : String) (bls : List BLEntry) (rows : List BLRow) :
    ∀ b v, keyMem (blIngest dt crn (blIngest dt crn rows bls).1 bls).2.1 b v = true →
      keyMem (blIngest dt crn rows bls).2.1 b v = true := by
  by_cases hdt : (dt == "HMNDOC") = true
  · have hdteq : dt = "HMNDOC" := by simpa using hdt
    subst hdteq
    exact fun b v h =>
      blIngest_hmndoc_keys_subset crn bls rows _ (fun r hr => hr) b v h
  · have hdtf : (dt == "HMNDOC") = false := by rwa [Bool.not_eq_true] at hdt
    by_cases hamn : (dt == "AMNDOC" || dt == "ADLDOC") = true
    · intro b v
      rw [blIngest_keys_amn dt crn hdtf hamn bls _, blIngest_keys_amn dt crn hdtf hamn bls rows]
      exact id
    · have hamnf : (dt == "AMNDOC" || dt == "ADLDOC") = false := by
        rwa [Bool.not_eq_true] at hamn
      intro b v
      rw [(blIngest_keys_other dt crn hdtf hamnf bls _).2,
        (blIngest_keys_other dt crn hdtf hamnf bls rows).2]
      exact id

/-! ## Claim C4 -/

/-- C4: re-ingesting the same parsed manifest file leaves the stored
container-row and vehicle-row count of every (BL number, BL version) pair
exactly as after the first ingestion, from any starting store: the keys
processed by the second run are a subset of the first run's keys, and for
each of them the children were already replaced by exactly the parsed
child rows (delete-then-reinsert), so the second replacement is a no-op on
the counts. -/
theorem c4_child_replace (db : ManifestDB) (d : ParsedManifest) (bl : String) (ver : Int) :
    childCount (ingestManifest (ingestManifest db d).1 d).1.containers bl ver =
      childCount (ingestManifest db d).1.containers bl ver ∧
    childCount (ingestManifest (ingestManifest db d).1 d).1.vehicles bl ver =
      childCount (ingestManifest db d).1.vehicles bl ver := by
  by_cases hcrn : (d.crn == "") = true
  · have hcrn' : d.crn = "" := by simpa using hcrn
    unfold ingestManifest
    simp [hcrn']
  · unfold ingestManifest
    simp only [if_neg hcrn]
    simp only [replaceChildren_count]
    by_cases hm2 : keyMem (blIngest d.document_type d.crn
        (blIngest d.document_type d.crn db.bl_rows d.bl_list).1 d.bl_list).2.1 bl ver = true
    · have hm1 := blIngest_keys_subset d.document_type d.crn d.bl_list db.bl_rows bl ver hm2
      constructor <;> rw [if_pos hm2, if_pos hm1]
    · constructor <;> rw [if_neg hm2]

/-! ## Helper lemmas — streaming header loader -/

theorem streamLoop_run : ∀ (rows : List (List XmlVal)) (acc : List BoeHeaderRec) (n : Nat),
    (∀ r ∈ rows, 30 ≤ (extractValues r).length → (buildRecord (extractValues r)).isOk = true) →
    ∃ recs, streamLoop rows acc n = .ok (acc ++ recs, n + recs.length) ∧
      recs.length = (rows.filter fun r => decide (30 ≤ (extractValues r).length)).length := by
  intro rows
  induction rows with
  | nil =>
    intro acc n _
    exact ⟨[], by simp [streamLoop], by simp⟩
  | cons r rest ih =>
    intro acc n hq
    have hqrest : ∀ x ∈ rest, 30 ≤ (extractValues x).length →
        (buildRecord (extractValues x)).isOk = true :=
      fun x hx => hq x (List.mem_cons_of_mem _ hx)
    by_cases hlen : (extractValues r).length < 30
    · have hstep : streamLoop (r :: rest) acc n = streamLoop rest acc n := by
        simp only [streamLoop]
        rw [if_pos hlen]
      obtain ⟨recs, hrun, hcount⟩ := ih acc n hqrest
      refine ⟨recs, hstep ▸ hrun, ?_⟩
      rw [hcount, List.filter_cons,
        if_neg (by simp only [decide_eq_true_eq]; exact Nat.not_le.mpr hlen)]
    · have h30 : 30 ≤ (extractValues r).length := by omega
      have hok := hq r (List.mem_cons_self ..) h30
      cases hbuild : buildRecord (extractValues r) with
      | error e =>
        rw [hbuild] at hok
        simp [Except.isOk, Except.toBool] at hok
      | ok rec0 =>
        have hstep : streamLoop (r :: rest) acc n =
            streamLoop rest (acc ++ [rec0]) (n + 1) := by
          simp only [streamLoop]
          rw [if_neg hlen, hbuild]
        obtain ⟨recs, hrun, hcount⟩ := ih (acc ++ [rec0]) (n + 1) hqrest
        refine ⟨rec0 :: recs, ?_, ?_⟩
        · rw [hstep, hrun]
          simp only [Except.ok.injEq, Prod.mk.injEq]
          constructor
          · simp
          · simp only [List.length_cons]
            omega
        · rw [List.filter_cons, if_pos (by simpa using h30)]
          simp [hcount]

/-! ## Claim C9 -/

/-- C9, counterexample: a row with a full 30-value list whose value at
position 12 (`no_of_pkg`) is the non-numeric text `"abc"` makes `safe_int`
raise, which aborts the whole file (rollback, zero rows) — so "all rows
with at least 30 values are inserted" fails: even a preceding well-formed
row is not inserted. -/
theorem c9_counterexample :
    (extractValues (List.replicate 12 (⟨false, none⟩ : XmlVal) ++ [⟨false, some "abc"⟩] ++
      List.replicate 17 (⟨false, none⟩ : XmlVal))).length = 30 ∧
    streamAndLoad [List.replicate 30 (⟨false, none⟩ : XmlVal),
      List.replicate 12 (⟨false, none⟩ : XmlVal) ++ [⟨false, some "abc"⟩] ++
        List.replicate 17 (⟨false, none⟩ : XmlVal)] = .error PyErr.valueError := by
  constructor
  · rfl
  · rfl

/-- C9 (amended): nil-marked values map to null; and provided every row
with at least 30 extracted values coerces without error (`safe_int` /
`safe_float` can raise on malformed numeric text, failing the whole file —
see the counterexample), a non-empty file loads successfully, every row
with fewer than 30 values is dropped and excluded from the loaded count,
and the loaded count equals the number of rows with at least 30 values. -/
theorem c9_stream_rows :
    (∀ (row : List XmlVal) (i : Nat) (x : XmlVal), row[i]? = some x → x.nil = true →
      (extractValues row)[i]? = some none) ∧
    ∀ rows : List (List XmlVal), rows ≠ [] →
      (∀ r ∈ rows, 30 ≤ (extractValues r).length →
        (buildRecord (extractValues r)).isOk = true) →
      ∃ recs n, streamAndLoad rows = .ok (recs, n) ∧ recs.length = n ∧
        n = (rows.filter fun r => decide (30 ≤ (extractValues r).length)).length := by
  constructor
  · intro row i x hx hnil
    unfold extractValues
    rw [List.getElem?_map, hx]
    simp [hnil]
  · intro rows hne hq
    have hlen : ¬(rows.length = 0) := by
      intro h
      exact hne (List.length_eq_zero.mp h)
    obtain ⟨recs, hrun, hcount⟩ := streamLoop_run rows [] 0 hq
    refine ⟨recs, recs.length, ?_, rfl, hcount.symm ▸ rfl⟩
    unfold streamAndLoad
    rw [if_neg hlen, hrun]
    simp

/-- C9 witness: a file with one full 30-value row and one 25-value row —
it loads, the loaded count is 1, and the short row is excluded. -/
theorem c9_witness :
    ∃ recs n,
      streamAndLoad [List.replicate 30 (⟨false, none⟩ : XmlVal),
        List.replicate 25 (⟨false, none⟩ : XmlVal)] = .ok (recs, n) ∧
      recs.length = n ∧
      n = ([List.replicate 30 (⟨false, none⟩ : XmlVal),
        List.replicate 25 (⟨false, none⟩ : XmlVal)].filter
          fun r => decide (30 ≤ (extractValues r).length)).length :=
  c9_stream_rows.2
    [List.replicate 30 (⟨false, none⟩ : XmlVal), List.replicate 25 (⟨false, none⟩ : XmlVal)]
    (by simp) (by decide)

end Boe
